import Mathlib

/-!
# Verification of the object/label generation and balancing engine

Shallow embedding of `simple_relational_reasoning/datagen`:
`object_relations.py` (relation evaluators and balancers),
`object_gen.py` (batch generators) and `quinn_objects.py`
(structured dataset builders).

Conventions of the embedding:
* a torch object vector becomes `Obj := List Int` (all values the
  generators produce are integers: grid coordinates from `randint`,
  one-hot entries 0/1, lengths);
* a scene (`objects`, shape object_count x object_length) becomes
  `Scene := List Obj`;
* a Python `slice(start, stop)` becomes `FSlice`;
* every call to the random source (`torch.randperm`, `random.randint`,
  `torch.rand`, `np.random.Generator`) becomes an explicit parameter of
  the function that draws it, constrained in the theorems exactly by the
  bounds the drawing call guarantees;
* a raised exception becomes an explicit error value.  `BalanceResult.raised`
  carries the tensor as it is at the moment of the raise, so "the scene is
  unchanged when the error is raised" is the statement that the carried
  scene equals the input;
* the unbounded `while` loops (the color-above-color collision loop, the
  rejection-sampling accumulation loop) are given a `fuel` parameter and
  return `none`/`Option.none` when the fuel runs out while the Python loop
  would still be running; no fuel value turns a run that terminates in
  Python into one that does not.
-/

/-- An object: one fixed-length feature vector (a row of the `objects`
tensor). -/
abbrev Obj := List Int

/-- A scene: the ordered collection of object vectors a relation is
evaluated over. -/
abbrev Scene := List Obj

/-- A Python `slice(start, stop)` into an object vector. -/
structure FSlice where
  start : Nat
  stop : Nat
deriving DecidableEq, Repr

/-- `objects[i, sl]` for a general slice: the sub-vector of `o` from
`sl.start` (inclusive) to `sl.stop` (exclusive). -/
def sliceOf (o : Obj) (sl : FSlice) : List Int :=
  (o.take sl.stop).drop sl.start

/-- `objects[i, k]` for a width-1 field whose slice starts at `k`: the
position-coordinate fields (`x`, `y`) all have width 1, so the code's
scalar reads and writes of such a slice are reads and writes of the entry
at its start index. -/
def coordOf (o : Obj) (k : Nat) : Int :=
  o.getD k 0

/-- `objects[i, k] = v` for a width-1 field starting at `k`. -/
def setCoord (objects : Scene) (i : Nat) (k : Nat) (v : Int) : Scene :=
  objects.set i ((objects.getD i []).set k v)

/-- `o[sl] = vals` for a full-slice tensor assignment (the shapes match in
every call site, `vals.length = sl.stop - sl.start`). -/
def writeSlice (o : Obj) (sl : FSlice) (vals : List Int) : Obj :=
  o.take sl.start ++ vals ++ o.drop sl.stop

/-- `objects[i, sl] = vals`. -/
def writeSliceAt (objects : Scene) (i : Nat) (sl : FSlice) (vals : List Int) : Scene :=
  objects.set i (writeSlice (objects.getD i []) sl vals)

/-- `torch.zeros(n)` with a 1 written at `idx`: the one-hot encoding each
categorical field generator produces. -/
def oneHot (n : Nat) (idx : Nat) : List Int :=
  (List.range n).map (fun i => if i = idx then 1 else 0)

/-- The message every balancer raises (`ValueError`) when it is asked to
balance anything but the negative class. -/
def balanceErrorMsg : String :=
  "Can only balance negative cases to positive ones for the time being"

/-- The outcome of a `balance` call: `raised msg objects` models a raised
`ValueError` with the tensor in the state it has at the raise (all five
balancers check the label before touching the tensor), `ok objects` the
returned tensor. -/
inductive BalanceResult where
  | raised (msg : String) (objects : Scene)
  | ok (objects : Scene)
deriving DecidableEq, Repr

/-! ## OneDAdjacentRelation (object_relations.py lines 48-79) -/

/-- `OneDAdjacentRelation`: configuration the methods read.  The relevant
field (default `x`) has width 1; `minCoord`/`maxCoord` are the relevant
field generator's bounds. -/
structure OneDAdjacentRelation where
  relevantStart : Nat
  minCoord : Int
  maxCoord : Int
deriving DecidableEq, Repr

/-- `OneDAdjacentRelation.evaluate`: the L1 distance matrix of the
width-1 relevant field has some entry exactly 1 (`torch.cdist(...,1)`
compares every ordered pair, the diagonal entries are 0 and never match;
`torch.isclose` to 1.0 on integer-valued coordinates is exact equality). -/
def OneDAdjacentRelation.evaluate (rel : OneDAdjacentRelation) (objects : Scene) : Bool :=
  let positions := objects.map (fun o => coordOf o rel.relevantStart)
  (List.range positions.length).any fun i =>
    (List.range positions.length).any fun j =>
      (positions.getD i 0 - positions.getD j 0).natAbs == 1

/-- `OneDAdjacentRelation.balance`.  Random draws as parameters:
`indexToModify`, `indexToSetNextTo` are the first two entries of
`torch.randperm(objects.shape[0])` (distinct, in range), and `shiftSign`
is `torch.sign(torch.rand(()) - 0.5)`, i.e. -1 or +1 (under real-valued
uniform sampling the draw 0.5 itself has probability 0). -/
def OneDAdjacentRelation.balance (rel : OneDAdjacentRelation) (objects : Scene)
    (currentLabel : Int) (indexToModify indexToSetNextTo : Nat) (shiftSign : Int) :
    BalanceResult :=
  if currentLabel ≠ 0 then .raised balanceErrorMsg objects
  else
    let objects1 := setCoord objects indexToModify rel.relevantStart
      (coordOf (objects.getD indexToSetNextTo []) rel.relevantStart)
    let x := coordOf (objects1.getD indexToModify []) rel.relevantStart
    let objects2 :=
      if x = rel.minCoord then
        setCoord objects1 indexToModify rel.relevantStart (rel.minCoord + 1)
      else if x = rel.maxCoord - 1 then
        setCoord objects1 indexToModify rel.relevantStart (rel.maxCoord - 2)
      else
        setCoord objects1 indexToModify rel.relevantStart (x + shiftSign)
    .ok objects2

/-! ## MultipleDAdjacentRelation (object_relations.py lines 82-116)

Embedded at the default configuration `position_field_names = ('x', 'y')`:
two width-1 position fields, each with its own generator bounds. -/

/-- `MultipleDAdjacentRelation` at the default two position fields. -/
structure MultipleDAdjacentRelation where
  xStart : Nat
  yStart : Nat
  xMin : Int
  xMax : Int
  yMin : Int
  yMax : Int
deriving DecidableEq, Repr

/-- The concatenated position vector `torch.cat([objects[:, s] for s in
position_field_slices], dim=1)` of one object. -/
def MultipleDAdjacentRelation.posOf (rel : MultipleDAdjacentRelation) (o : Obj) : List Int :=
  [coordOf o rel.xStart, coordOf o rel.yStart]

/-- L1 distance between two equal-length integer vectors. -/
def l1Dist (a b : List Int) : Nat :=
  ((a.zip b).map (fun p => (p.1 - p.2).natAbs)).sum

/-- `MultipleDAdjacentRelation.evaluate`: some pair of objects is at L1
distance exactly 1 in the concatenated position fields. -/
def MultipleDAdjacentRelation.evaluate (rel : MultipleDAdjacentRelation) (objects : Scene) :
    Bool :=
  let positions := objects.map rel.posOf
  (List.range positions.length).any fun i =>
    (List.range positions.length).any fun j =>
      l1Dist (positions.getD i []) (positions.getD j []) == 1

/-- `MultipleDAdjacentRelation.balance`.  Draws as parameters: the two
distinct `randperm` indices, `sliceIndex` = `random.randint(0, 1)` picking
which of the two position fields to perturb, and `shiftSign` as in the 1-D
case. -/
def MultipleDAdjacentRelation.balance (rel : MultipleDAdjacentRelation) (objects : Scene)
    (currentLabel : Int) (indexToModify indexToSetNextTo : Nat)
    (sliceIndex : Nat) (shiftSign : Int) : BalanceResult :=
  if currentLabel ≠ 0 then .raised balanceErrorMsg objects
  else
    let objects1 := setCoord objects indexToModify rel.xStart
      (coordOf (objects.getD indexToSetNextTo []) rel.xStart)
    let objects2 := setCoord objects1 indexToModify rel.yStart
      (coordOf (objects1.getD indexToSetNextTo []) rel.yStart)
    let st := if sliceIndex = 0 then rel.xStart else rel.yStart
    let minC := if sliceIndex = 0 then rel.xMin else rel.yMin
    let maxC := if sliceIndex = 0 then rel.xMax else rel.yMax
    let x := coordOf (objects2.getD indexToModify []) st
    let objects3 :=
      if x = minC then setCoord objects2 indexToModify st (minC + 1)
      else if x = maxC - 1 then setCoord objects2 indexToModify st (maxC - 2)
      else setCoord objects2 indexToModify st (x + shiftSign)
    .ok objects3

/-! ## ColorAboveColorRelation (object_relations.py lines 119-202) -/

/-- `ColorAboveColorRelation` configuration: width-1 `x`/`y` fields, a
one-hot color field of `nTypes` entries, the two color indices, the `x`
and `y` generator bounds and the stuck-count threshold. -/
structure ColorAboveColorRelation where
  xStart : Nat
  yStart : Nat
  colorSlice : FSlice
  nTypes : Nat
  aboveColorIndex : Nat
  belowColorIndex : Nat
  xMin : Int
  xMax : Int
  yMin : Int
  yMax : Int
  stuckCountToPerturbX : Nat
deriving DecidableEq, Repr

/-- `self.above_color_tensor`. -/
def ColorAboveColorRelation.aboveTensor (rel : ColorAboveColorRelation) : List Int :=
  oneHot rel.nTypes rel.aboveColorIndex

/-- `self.below_color_tensor`. -/
def ColorAboveColorRelation.belowTensor (rel : ColorAboveColorRelation) : List Int :=
  oneHot rel.nTypes rel.belowColorIndex

/-- `colors.eq(above_color_tensor).all(dim=1)` for one object. -/
def ColorAboveColorRelation.isAbove (rel : ColorAboveColorRelation) (o : Obj) : Bool :=
  sliceOf o rel.colorSlice == rel.aboveTensor

/-- `colors.eq(below_color_tensor).all(dim=1)` for one object. -/
def ColorAboveColorRelation.isBelow (rel : ColorAboveColorRelation) (o : Obj) : Bool :=
  sliceOf o rel.colorSlice == rel.belowTensor

/-- `ColorAboveColorRelation.evaluate` (lines 148-159): false when no
above-color object exists, true when above-color objects exist but no
below-color object does, otherwise true iff some above-color object's `y`
is >= every below-color object's `y`. -/
def ColorAboveColorRelation.evaluate (rel : ColorAboveColorRelation) (objects : Scene) :
    Bool :=
  let aboveColorYPositions :=
    (objects.filter rel.isAbove).map (fun o => coordOf o rel.yStart)
  let belowColorYPositions :=
    (objects.filter rel.isBelow).map (fun o => coordOf o rel.yStart)
  if aboveColorYPositions.length = 0 then false
  else if belowColorYPositions.length = 0 then true
  else aboveColorYPositions.any fun ay => belowColorYPositions.all fun b => b ≤ ay

/-- `ObjectRelation._object_in_position` (lines 40-45) at the default
position fields `('x', 'y')`, traced through the tensor shapes: the
`.unsqueeze(0)` gives `object_positions` shape `(1, n, 2)`, so
`(object_positions == position).all(dim=1)` reduces over the OBJECTS
axis and yields the length-2 vector `[all objects share the proposal's
x, all objects share the proposal's y]`; `nonzero(...).squeeze()` is
then nonempty iff either entry holds.  The function therefore does NOT
test occupancy of the proposed cell: it reports a collision iff all
objects share the proposal's `x` coordinate or all objects share its
`y` coordinate. -/
def ColorAboveColorRelation.objectInPosition (rel : ColorAboveColorRelation)
    (objects : Scene) (pos : List Int) : Bool :=
  (objects.all fun o => coordOf o rel.xStart == pos.getD 0 0) ||
    (objects.all fun o => coordOf o rel.yStart == pos.getD 1 0)

/-- The collision-resolution `while collision:` loop of
`ColorAboveColorRelation.balance` (lines 187-199).  `draws k` is the pair
of `random.randint` results available at stuck count `k`: the `x` draw
(used only once `k > stuck_count_to_perturb_x`, bounds
`[xMin, xMax - 1]`) and the `y` draw (bounds `[maxBelow, yMax - 1]`).
The Python loop has no iteration bound and raises nothing; `fuel` only
truncates the embedding, and `none` means the loop is still running after
`fuel` iterations. -/
def ColorAboveColorRelation.collisionLoop (rel : ColorAboveColorRelation) (objects : Scene)
    (indexToModify : Nat) (draws : Nat → Int × Int) :
    Nat → Nat → Option (Int × Int)
  | 0, _ => none
  | fuel + 1, stuckCount =>
    let stuck := stuckCount + 1
    let newX :=
      if stuck > rel.stuckCountToPerturbX then (draws stuck).1
      else coordOf (objects.getD indexToModify []) rel.xStart
    let newY := (draws stuck).2
    if rel.objectInPosition objects [newX, newY] then
      rel.collisionLoop objects indexToModify draws fuel stuck
    else some (newX, newY)

/-- `max_below_color_position` (lines 174-179): the `y` generator's
`min_coord` when no below-color object exists, otherwise the maximum `y`
among the below-color objects.  Its only use in the code is as the lower
bound of the collision loop's `random.randint` draw for `y`, which the
theorems state as a hypothesis on `draws`. -/
def ColorAboveColorRelation.maxBelowColorPosition (rel : ColorAboveColorRelation)
    (objects : Scene) : Int :=
  match (objects.filter rel.isBelow).map (fun o => coordOf o rel.yStart) with
  | [] => rel.yMin
  | y :: ys => ys.foldl max y

/-- Lines 168-172 of `balance`: if no above-color object exists, recolor
the object at the drawn index (`random.randint(0, n-1)`) to the above
color. -/
def ColorAboveColorRelation.ensureAboveObject (rel : ColorAboveColorRelation)
    (objects : Scene) (recolorIdx : Nat) : Scene :=
  if (objects.filter rel.isAbove).length = 0 then
    writeSliceAt objects recolorIdx rel.colorSlice rel.aboveTensor
  else objects

/-- `above_object_indices` (line 181): `torch.nonzero(...)` of the
above-color mask, i.e. the in-order list of above-colored indices. -/
def ColorAboveColorRelation.aboveObjectIndices (rel : ColorAboveColorRelation)
    (objects : Scene) : List Nat :=
  (List.range objects.length).filter fun i => rel.isAbove (objects.getD i [])

/-- `ColorAboveColorRelation.balance` (lines 161-202).  Draws as
parameters: `recolorIdx` = `random.randint(0, n-1)` (used only when no
above-color object exists), `pick` selects among the above-color indices
(`above_object_indices[randperm(...)[0]]`, so `pick` is in range of that
list), and `draws`/`fuel` drive the collision loop, whose `y` draws range
over `[rel.maxBelowColorPosition objects1, yMax - 1]`.  Returns `none`
when the collision loop is still running after `fuel` iterations. -/
def ColorAboveColorRelation.balance (rel : ColorAboveColorRelation) (objects : Scene)
    (currentLabel : Int) (recolorIdx : Nat) (pick : Nat) (draws : Nat → Int × Int)
    (fuel : Nat) : Option BalanceResult :=
  if currentLabel ≠ 0 then some (.raised balanceErrorMsg objects)
  else
    let objects1 := rel.ensureAboveObject objects recolorIdx
    let indexToModify := (rel.aboveObjectIndices objects1).getD pick 0
    match rel.collisionLoop objects1 indexToModify draws fuel 0 with
    | none => none
    | some (newX, newY) =>
      let objects2 := setCoord objects1 indexToModify rel.xStart newX
      let objects3 := setCoord objects2 indexToModify rel.yStart newY
      some (.ok objects3)

/-! ## ObjectCountRelation (object_relations.py lines 205-269) -/

/-- `ObjectCountRelation` configuration: two one-hot fields (default
`color` and `shape`, disjoint slices) with one distinguished index each. -/
structure ObjectCountRelation where
  firstSlice : FSlice
  firstNTypes : Nat
  firstIndex : Nat
  secondSlice : FSlice
  secondNTypes : Nat
  secondIndex : Nat
deriving DecidableEq, Repr

/-- `self.first_object_tensor`. -/
def ObjectCountRelation.firstTensor (rel : ObjectCountRelation) : List Int :=
  oneHot rel.firstNTypes rel.firstIndex

/-- `self.second_object_tensor`. -/
def ObjectCountRelation.secondTensor (rel : ObjectCountRelation) : List Int :=
  oneHot rel.secondNTypes rel.secondIndex

/-- Does an object count for the first category? -/
def ObjectCountRelation.isFirst (rel : ObjectCountRelation) (o : Obj) : Bool :=
  sliceOf o rel.firstSlice == rel.firstTensor

/-- Does an object count for the second category? -/
def ObjectCountRelation.isSecond (rel : ObjectCountRelation) (o : Obj) : Bool :=
  sliceOf o rel.secondSlice == rel.secondTensor

/-- `ObjectCountRelation.evaluate`: count(first) > count(second). -/
def ObjectCountRelation.evaluate (rel : ObjectCountRelation) (objects : Scene) : Bool :=
  (objects.filter rel.isFirst).length > (objects.filter rel.isSecond).length

/-- Lines 243-253 of `balance`: zero the distinguished second-field entry
of every chosen second-category object, then set each one's freshly drawn
type entry to 1 (two fancy-indexing assignments, embedded as two folds
over the chosen indices). -/
def ObjectCountRelation.applySecondReassignment (rel : ObjectCountRelation)
    (objects : Scene) (secondChosen : List Nat) (newAssigns : List Nat) : Scene :=
  let objectsA := secondChosen.foldl
    (fun acc i => setCoord acc i (rel.secondSlice.start + rel.secondIndex) 0) objects
  (secondChosen.zip newAssigns).foldl
    (fun acc p => setCoord acc p.1 (rel.secondSlice.start + p.2) 1) objectsA

/-- The scene after the (conditional) second-category recoloring: changed
only when every object is of the second category. -/
def ObjectCountRelation.recoloredScene (rel : ObjectCountRelation) (objects : Scene)
    (secondChosen : List Nat) (newAssigns : List Nat) : Scene :=
  if (objects.filter rel.isSecond).length = objects.length then
    rel.applySecondReassignment objects secondChosen newAssigns
  else objects

/-- `valid_indices_to_modify` (line 262): the indices of the objects not
of the first category. -/
def ObjectCountRelation.validIndicesToModify (rel : ObjectCountRelation)
    (objects : Scene) : List Nat :=
  (List.range objects.length).filter fun i => ! rel.isFirst (objects.getD i [])

/-- `ObjectCountRelation.balance` (lines 232-269).  Draws as parameters:
when every object is of the second category, `numSecondToModify` =
`random.randint(1, count(second) - 1)`, `secondChosen` the `randperm`
prefix of that length over the second-category indices, `newAssigns` the
`random.choices` draws (each a type index different from `secondIndex`);
then `numToModify` = `random.randint(min_objects_to_modify,
n - count(first))` and `firstChosen` the permutation of the non-first
indices whose prefix of length `numToModify` is modified.  The 0-dim
`squeeze()` special case (exactly one non-first index) assigns that
single index directly. -/
def ObjectCountRelation.balance (rel : ObjectCountRelation) (objects : Scene)
    (currentLabel : Int) (numSecondToModify : Nat) (secondChosen : List Nat)
    (newAssigns : List Nat) (numToModify : Nat) (firstChosen : List Nat) :
    BalanceResult :=
  if currentLabel ≠ 0 then .raised balanceErrorMsg objects
  else
    let firstObjectCount := (objects.filter rel.isFirst).length
    let secondObjectCount := (objects.filter rel.isSecond).length
    let objects1 := rel.recoloredScene objects secondChosen newAssigns
    let minObjectsToModify : Int :=
      (secondObjectCount : Int) - firstObjectCount + 1 -
        (if secondObjectCount = objects.length then (numSecondToModify : Int) else 0)
    if minObjectsToModify ≤ 0 then .ok objects1
    else
      if (rel.validIndicesToModify objects1).length = 1 then
        .ok (writeSliceAt objects1 ((rel.validIndicesToModify objects1).getD 0 0)
          rel.firstSlice rel.firstTensor)
      else
        .ok ((firstChosen.take numToModify).foldl
          (fun acc i => writeSliceAt acc i rel.firstSlice rel.firstTensor) objects1)

/-! ## IdenticalObjectsRelation (object_relations.py lines 272-298) -/

/-- `IdenticalObjectsRelation` configuration: the declared property-field
slices (default `('color', 'shape')`). -/
structure IdenticalObjectsRelation where
  propertySlices : List FSlice
deriving DecidableEq, Repr

/-- `torch.cat([objects[:, s] for s in property_field_slices], dim=1)` for
one object: its concatenated property fields. -/
def IdenticalObjectsRelation.propsOf (rel : IdenticalObjectsRelation) (o : Obj) : List Int :=
  (rel.propertySlices.map (sliceOf o)).flatten

/-- `IdenticalObjectsRelation.evaluate` (lines 279-287), embedded exactly
as written: `object_properties` is built with a final `.unsqueeze(0)`, so
its shape is `(1, n, w)` and the loop `for i in range(
object_properties.shape[0] - 1)` runs over `range(0)`, i.e. never.  The
outer singleton list below is that `unsqueeze(0)`. -/
def IdenticalObjectsRelation.evaluate (rel : IdenticalObjectsRelation) (objects : Scene) :
    Bool :=
  let objectProperties : List (List (List Int)) := [objects.map rel.propsOf]
  (List.range (objectProperties.length - 1)).any fun i =>
    (objectProperties.drop (i + 1)).any fun mat => mat == objectProperties.getD i []

/-- `IdenticalObjectsRelation.balance` (lines 289-298): copy every
property field of `indexToSetNextTo` onto `indexToModify` (the two
distinct `randperm` indices). -/
def IdenticalObjectsRelation.balance (rel : IdenticalObjectsRelation) (objects : Scene)
    (currentLabel : Int) (indexToModify indexToSetNextTo : Nat) : BalanceResult :=
  if currentLabel ≠ 0 then .raised balanceErrorMsg objects
  else .ok (rel.propertySlices.foldl
    (fun acc sl => writeSliceAt acc indexToModify sl (sliceOf (acc.getD indexToSetNextTo []) sl))
    objects)

/-! ## Batch generators (object_gen.py)

The label bookkeeping of both balanced generators is closed over the
label vector: which scenes are resampled, when the loop stops, and what
labels the returned batch carries depend only on the labels, never on the
object data (the in-place `relation.balance` call is followed by
`labels[index] = self.negative_to_positive`, an assignment that does not
re-evaluate the relation).  The `SmartBalancedBatchObjectGenerator`
embedding therefore tracks the label vector `List Bool`; the post-hoc
`BalancedBatchObjectGenerator` embedding keeps `(data, label)` pairs. -/

/-- `labels.sum()` / the positive count of a label vector. -/
def countTrue (labels : List Bool) : Nat :=
  (labels.filter id).length

/-- `data[indices_to_resample] = resampled; labels[indices_to_resample] =
resampled_labels` restricted to the labels: every entry equal to `target`
is replaced by the next element of `fresh` (the freshly generated batch
has exactly as many entries as there are such positions, so on real runs
`fresh` is never exhausted). -/
def resampleLabels : List Bool → Bool → List Bool → List Bool
  | [], _, _ => []
  | b :: bs, target, fresh =>
    if b = target then fresh.headD b :: resampleLabels bs target fresh.tail
    else b :: resampleLabels bs target fresh

/-- `labels[target_indices] = value` where `target_indices` is a size-`k`
`randperm` prefix of the positions whose label equals `target`: the label
counts after the assignment do not depend on which size-`k` subset was
drawn, so the embedding flips the first `k` occurrences. -/
def setFirstK : List Bool → Bool → Bool → Nat → List Bool
  | [], _, _, _ => []
  | b :: bs, target, v, k =>
    if k = 0 then b :: bs
    else if b = target then v :: setFirstK bs target v (k - 1)
    else b :: setFirstK bs target v k

/-- The `ValueError` message of `SmartBalancedBatchObjectGenerator`. -/
def smartRecursionMsg : String :=
  "Object generator max recursion depth exceeded..."

/-- The `while more_positive_examples == self.negative_to_positive:` loop
of `SmartBalancedBatchObjectGenerator.__call__` (lines 121-139) plus the
balancing tail (lines 142-149).  `draw k` is the label vector of the
fresh batch drawn at correction round `k`; its first
`count (labels = negToPos)` entries are consumed.  `fuel` starts at
`maxDepth + 1`; the fuel-0 branch is unreachable (the `depth > maxDepth`
check fires first) and returns the same raised error for definiteness. -/
def smartLoop (negToPos : Bool) (maxDepth half : Nat) (draw : Nat → List Bool) :
    Nat → List Bool → Nat → Except String (List Bool)
  | 0, _, _ => .error smartRecursionMsg
  | fuel + 1, labels, depth =>
    if decide (countTrue labels > half) = negToPos then
      let depth1 := depth + 1
      if depth1 > maxDepth then .error smartRecursionMsg
      else
        let labels1 := resampleLabels labels negToPos (draw depth1)
        if countTrue labels1 = half then .ok labels1
        else smartLoop negToPos maxDepth half draw fuel labels1 depth1
    else
      .ok (setFirstK labels (!negToPos) negToPos
        (((countTrue labels : Int) - half).natAbs))

/-- `SmartBalancedBatchObjectGenerator.__call__` (lines 103-149): `draw 0`
is the label vector of the initial full batch, `draw k` (k >= 1) that of
correction round `k`.  A `batch_size` of 1 returns the unbalanced base
batch; otherwise the call returns as soon as the positive count hits
`batch_size // 2`, resampling while the imbalance is on the side the
balancer cannot fix and finally balancing the remaining scenes in place. -/
def smartBalancedCall (negToPos : Bool) (maxDepth : Nat) (batchSize : Nat)
    (draw : Nat → List Bool) : Except String (List Bool) :=
  if batchSize = 1 then .ok (draw 0)
  else
    let labels := draw 0
    if countTrue labels = batchSize / 2 then .ok labels
    else smartLoop negToPos maxDepth (batchSize / 2) draw (maxDepth + 1) labels 0

/-- `data[perm]` for a tensor of length `data.length`: an index out of
range raises an `IndexError`, embedded as `none`. -/
def tensorIndex (data : List α) (perm : List Nat) : Option (List α) :=
  perm.mapM fun i => data.get? i

/-- The accumulation loop of `BalancedBatchObjectGenerator.__call__`
(lines 70-83): repeatedly draw full batches of `(data, label)` pairs,
appending the positive draws while the positive pool is short of
`half` and the negative draws while the negative pool is, until both
pools hold at least `half` examples.  This rejection-sampling loop has no
iteration bound; `none` means it is still running after `fuel` draws. -/
def balancedAccLoop (half : Nat) (draw : Nat → List (α × Bool)) :
    Nat → Nat → List α → List α → Option (List α × List α)
  | 0, _, _, _ => none
  | fuel + 1, k, pos, neg =>
    if pos.length < half ∨ neg.length < half then
      let batch := draw k
      let pos1 :=
        if pos.length < half then pos ++ (batch.filter (fun p => p.2)).map (fun p => p.1)
        else pos
      let neg1 :=
        if neg.length < half then neg ++ (batch.filter (fun p => !p.2)).map (fun p => p.1)
        else neg
      balancedAccLoop half draw fuel (k + 1) pos1 neg1
    else some (pos, neg)

/-- `BalancedBatchObjectGenerator.__call__` (lines 62-90): accumulate the
two pools, truncate each to `half = batch_size // 2`, concatenate
(positives first, then negatives, with the matching constant labels) and
index the result with `perm = torch.randperm(batch_size)`.  `none` means
either that the accumulation loop is still running after `fuel` draws or
that the final indexing raised an `IndexError`. -/
def balancedBatchCall (batchSize : Nat) (draw : Nat → List (α × Bool))
    (perm : List Nat) (fuel : Nat) : Option (List α × List Bool) :=
  if batchSize = 1 then
    some (((draw 0).map (fun p => p.1)).take 1, ((draw 0).map (fun p => p.2)).take 1)
  else
    let half := batchSize / 2
    match balancedAccLoop half draw fuel 0 [] [] with
    | none => none
    | some (pos, neg) =>
      let data := pos.take half ++ neg.take half
      let labels := List.replicate half true ++ List.replicate half false
      match tensorIndex data perm, tensorIndex labels perm with
      | some d, some l => some (d, l)
      | _, _ => none

/-! ## Structured dataset builders (quinn_objects.py)

`QuinnDatasetGenerator` draws from one `np.random.default_rng(seed)`
instance created at construction.  That generator (an external library,
not part of this repository) is a deterministic function of the seed; the
embedding models its state as a `Nat` advanced by a fixed linear
congruential step, and `rng.shuffle(items)` as an in-place Fisher-Yates
style extraction shuffle driven by that stream.  Every theorem about the
split holds for every value the stream can take, so nothing depends on
the particular congruence chosen. -/

/-- One step of the modelled pseudo-random stream. -/
def lcgStep (s : Nat) : Nat :=
  (6364136223846793005 * s + 1442695040888963407) % (2 ^ 64)

/-- `rng.shuffle` modelled as repeated extraction: pick the entry at
`state % length`, move it to the front of the output, advance the state,
recurse on the rest.  `fuel` is instantiated with the list length. -/
def shuffleGo : Nat → List α → Nat → List α
  | 0, l, _ => l
  | fuel + 1, l, s =>
    match l with
    | [] => []
    | _ :: _ =>
      let k := s % l.length
      match h : l.drop k with
      | [] => l
      | x :: back => x :: shuffleGo fuel (l.take k ++ back) (lcgStep s)

/-- `self.rng.shuffle(items)`: the shuffled list. -/
def npShuffle (l : List α) (s : Nat) : List α :=
  shuffleGo l.length l s

/-- The rng state after a shuffle of `n` items (each extraction advances
the stream once). -/
def rngAfterShuffle (s : Nat) (n : Nat) : Nat :=
  lcgStep^[n] s

/-- `QuinnDatasetGenerator._split_train_test` (lines 309-317): raise when
neither `prop_train` nor `max_train_index` is given; otherwise shuffle
the items in place and cut at `max_train_index`, which defaults to
`int(np.floor(len(items) * prop_train))`.  `prop_train` is modelled as a
rational (the float 0.8 rounds to a nearby rational; every theorem below
holds for any cut index, so nothing depends on the rounding). -/
def splitTrainTest (items : List α) (rngState : Nat) (propTrain : Option ℚ)
    (maxTrainIndex : Option Nat) : Except String ((List α × List α) × Nat) :=
  match propTrain, maxTrainIndex with
  | none, none =>
    .error "Must provide _split_train_test with either prop_train or max_train_index"
  | _, _ =>
    let shuffled := npShuffle items rngState
    let cut :=
      match maxTrainIndex with
      | some k => k
      | none => (⌊(items.length : ℚ) * (propTrain.getD 0)⌋).toNat
    .ok ((shuffled.take cut, shuffled.drop cut), rngAfterShuffle rngState items.length)

/-- `range(a, b)` as a list of integers. -/
def pyRange (a b : Int) : List Int :=
  (List.range (b - a).toNat).map fun (i : Nat) => a + (i : Int)

/-- The construction-time configuration of `QuinnDatasetGenerator`
(lines 222-253) that the reference-location partition reads. -/
structure QuinnConfig where
  xMax : Int
  yMax : Int
  referenceObjectLength : Int
  referenceObjectXMargin : Int
  referenceObjectYMarginBottom : Int
  referenceObjectYMarginTop : Int
  propTrainReferenceObjectLocations : ℚ
  propTrainToValidation : Option ℚ
deriving DecidableEq

/-- `possible_reference_object_locations` (lines 244-248):
`itertools.product` of the margin-clipped `x` range and `y` range, in
product order. -/
def possibleReferenceObjectLocations (cfg : QuinnConfig) : List (Int × Int) :=
  (pyRange cfg.referenceObjectXMargin
      (cfg.xMax - cfg.referenceObjectXMargin - cfg.referenceObjectLength)).product
    (pyRange cfg.referenceObjectYMarginBottom (cfg.yMax - cfg.referenceObjectYMarginTop))

/-- The mutable state of a `QuinnDatasetGenerator` instance after
`__init__`: the partition, the advanced rng, and the three lazily
materialized dataset fields (all `None` at construction).  `δ` is the
dataset type, `τ` the test-dataset mapping type. -/
structure QuinnState (δ τ : Type) where
  rngState : Nat
  propTrainToValidation : Option ℚ
  trainReferenceObjectLocations : List (Int × Int)
  testReferenceObjectLocations : List (Int × Int)
  trainDataset : Option δ
  validationDataset : Option δ
  testDatasets : Option τ
deriving DecidableEq

/-- `QuinnDatasetGenerator.__init__` (lines 222-257): build the candidate
reference-object locations and split them once with the seeded rng.  The
only raise reachable from `__init__` is `_split_train_test`'s (never
taken: the constructor always passes `prop_train`); an empty candidate
list is NOT checked for, the split of `[]` simply yields `([], [])`. -/
def quinnInit (δ τ : Type) (cfg : QuinnConfig) (seed : Nat) :
    Except String (QuinnState δ τ) :=
  let locations := possibleReferenceObjectLocations cfg
  match splitTrainTest locations seed
      (some cfg.propTrainReferenceObjectLocations) none with
  | .error e => .error e
  | .ok ((train, test), rng1) =>
    .ok { rngState := rng1
          propTrainToValidation := cfg.propTrainToValidation
          trainReferenceObjectLocations := train
          testReferenceObjectLocations := test
          trainDataset := none
          validationDataset := none
          testDatasets := none }

/-- `QuinnDatasetGenerator.get_training_dataset` (lines 265-274).  The
subclass hook `_create_training_dataset` and the `_split_dataset` helper
(both of which draw from the rng) are passed in as functions from the
current rng state to their results plus the advanced rng state, keeping
the embedding parametric in the paradigm.  Returns the dataset and the
updated builder state. -/
def getTrainingDataset (createTraining : Nat → δ × Nat)
    (splitDataset : δ → ℚ → Nat → (δ × δ) × Nat) (s : QuinnState δ τ) :
    δ × QuinnState δ τ :=
  match s.trainDataset with
  | some ds => (ds, s)
  | none =>
    let (created, rng1) := createTraining s.rngState
    match s.propTrainToValidation with
    | some p =>
      if 0 < p then
        let ((train, val), rng2) := splitDataset created (1 - p) rng1
        (train, { s with trainDataset := some train
                         validationDataset := some val
                         rngState := rng2 })
      else (created, { s with trainDataset := some created, rngState := rng1 })
    | none => (created, { s with trainDataset := some created, rngState := rng1 })

/-- `QuinnDatasetGenerator.get_test_datasets` (lines 285-289): create and
cache the named test-condition mapping on first access. -/
def getTestDatasets (createTests : Nat → τ × Nat) (s : QuinnState δ τ) :
    τ × QuinnState δ τ :=
  match s.testDatasets with
  | some ds => (ds, s)
  | none =>
    let (ds, rng1) := createTests s.rngState
    (ds, { s with testDatasets := some ds, rngState := rng1 })

/-! ## Concrete instances used by the theorems below -/

/-- A 1-D adjacency relation on a `[0, 10)` grid, relevant field at
index 0. -/
def oneDRelC : OneDAdjacentRelation :=
  { relevantStart := 0, minCoord := 0, maxCoord := 10 }

/-- A 2-D adjacency relation on a `[0, 10) x [0, 10)` grid. -/
def multiDRelC : MultipleDAdjacentRelation :=
  { xStart := 0, yStart := 1, xMin := 0, xMax := 10, yMin := 0, yMax := 10 }

/-- An object-count relation: objects are `[x, y] ++ color ++ shape` with
3-type one-hot color (slice `[2, 5)`) and shape (slice `[5, 8)`). -/
def objCountRelC : ObjectCountRelation :=
  { firstSlice := ⟨2, 5⟩, firstNTypes := 3, firstIndex := 0,
    secondSlice := ⟨5, 8⟩, secondNTypes := 3, secondIndex := 0 }

/-- An identical-objects relation: objects are `[x, y, color, shape]`
with width-1 property fields `color` (slice `[2, 3)`) and `shape`
(slice `[3, 4)`). -/
def identRelC : IdenticalObjectsRelation :=
  { propertySlices := [⟨2, 3⟩, ⟨3, 4⟩] }

/-- Two objects at different positions with different property fields:
`evaluate` labels this scene 0 (it labels every scene 0). -/
def identSceneC : Scene := [[0, 0, 1, 2], [5, 5, 3, 4]]

/-- `identSceneC` after `balance(. , 0)` with randperm indices (0, 1):
object 0 received object 1's property fields, so the two objects now
share identical `color` and `shape` at different positions. -/
def identBalancedC : Scene := [[0, 0, 3, 4], [5, 5, 3, 4]]

/-- A color-above-color relation on a 1 x 2 grid (`x` in `[0, 1)`, `y` in
`[0, 2)`) with 2-type one-hot color at slice `[2, 4)`: above color 0,
below color 1, default stuck threshold 10. -/
def stuckRel : ColorAboveColorRelation :=
  { xStart := 0, yStart := 1, colorSlice := ⟨2, 4⟩, nTypes := 2,
    aboveColorIndex := 0, belowColorIndex := 1,
    xMin := 0, xMax := 1, yMin := 0, yMax := 2, stuckCountToPerturbX := 10 }

/-- The scene that makes `stuckRel`'s collision loop spin forever: the
above-color object sits at (0,0), the below-color object at (0,1).  The
label is 0, both objects have `x = 0`, and every proposal the loop can
make also has `x = 0` (the moved object's own `x` while the stuck count
is small, and a `random.randint(0, 0)` draw afterwards), so the buggy
collision test of `_object_in_position` — all objects share the
proposal's `x`, or all share its `y` — is true on every iteration. -/
def stuckScene : Scene := [[0, 0, 1, 0], [0, 1, 0, 1]]

/-- One admissible draw stream for `stuckRel` on `stuckScene`: every
`randint` bound forces exactly these values. -/
def stuckDraws : Nat → Int × Int := fun _ => (0, 1)

/-- The collision-resolution loop of `ColorAboveColorRelation.balance`
never terminates on `stuckScene` with the admissible draw stream
`stuckDraws`: whatever fuel the embedding grants, the loop is still
reporting collisions (all objects share every proposal's `x`), and no
error is ever raised (the code has no iteration bound). -/
def collisionLoopSpinsOnStuckScene : Prop :=
  ∀ fuel : Nat, stuckRel.balance stuckScene 0 0 0 stuckDraws fuel = none

/-- A builder configuration whose margins leave no legal reference-object
location: the canvas is 1 wide but the reference object is 2 long, so the
candidate `x` range `range(0, 1 - 0 - 2)` is empty. -/
def emptyCfg : QuinnConfig :=
  { xMax := 1, yMax := 3, referenceObjectLength := 2,
    referenceObjectXMargin := 0, referenceObjectYMarginBottom := 0,
    referenceObjectYMarginTop := 0,
    propTrainReferenceObjectLocations := 4 / 5,
    propTrainToValidation := some (1 / 10) }

/-! ## Helper lemmas -/

/-- On `stuckScene` with `x` draws forced to 0 (the only in-range
value), every proposal of the collision loop has `x = 0`, which every
object shares, so `_object_in_position` reports a collision on every
iteration — whatever `y` is drawn — and the loop runs out of any fuel. -/
theorem stuck_collisionLoop_none (draws : Nat → Int × Int)
    (hx : ∀ k, (draws k).1 = 0) :
    ∀ fuel stuck, stuckRel.collisionLoop stuckScene 0 draws fuel stuck = none := by
  intro fuel
  induction fuel with
  | zero => intro stuck; rfl
  | succ n ih =>
    intro stuck
    rw [ColorAboveColorRelation.collisionLoop]
    have hnx : (if stuck + 1 > stuckRel.stuckCountToPerturbX then (draws (stuck + 1)).1
        else coordOf (stuckScene.getD 0 []) stuckRel.xStart) = 0 := by
      split
      · exact hx (stuck + 1)
      · rfl
    rw [hnx]
    have hone : ∀ y : Int, stuckRel.objectInPosition stuckScene [0, y] = true :=
      fun y => rfl
    rw [if_pos (hone _)]
    exact ih (stuck + 1)

/-- `balance` on `stuckScene` with forced `x` draws never returns: it
neither produces a scene nor raises. -/
theorem stuck_balance_none (draws : Nat → Int × Int)
    (hx : ∀ k, (draws k).1 = 0) (fuel : Nat) :
    stuckRel.balance stuckScene 0 0 0 draws fuel = none := by
  have h := stuck_collisionLoop_none draws hx fuel 0
  show (match stuckRel.collisionLoop stuckScene 0 draws fuel 0 with
    | none => none
    | some (newX, newY) =>
        some (BalanceResult.ok
          (setCoord (setCoord stuckScene 0 stuckRel.xStart newX) 0 stuckRel.yStart newY))) = none
  rw [h]

/-! ## Claim theorems -/

/-- C2: `IdenticalObjectsRelation.evaluate` returns `false` on every
scene — the `unsqueeze(0)` gives `object_properties` first dimension 1,
so the comparison loop `for i in range(shape[0] - 1)` never executes and
the declared semantics (true iff two distinct objects share the property
fields) is never computed. -/
theorem identicalObjects_evaluate_always_false (rel : IdenticalObjectsRelation)
    (objects : Scene) : rel.evaluate objects = false := rfl

/-- C1: the identical-objects balancer is not label-exact.  On the
2-object scene `identSceneC` (label 0), `balance(scene, 0)` with randperm
indices (0, 1) returns `identBalancedC`, whose two objects share
identical color and shape fields while sitting at different positions —
yet `evaluate` still returns `false` (0), not the flipped label 1,
because `evaluate` always returns `false`. -/
theorem identicalObjects_balance_not_label_exact :
    identRelC.evaluate identSceneC = false ∧
    identRelC.balance identSceneC 0 0 1 = .ok identBalancedC ∧
    identRelC.propsOf (identBalancedC.getD 0 []) =
      identRelC.propsOf (identBalancedC.getD 1 []) ∧
    (identBalancedC.getD 0 []).getD 0 0 ≠ (identBalancedC.getD 1 []).getD 0 0 ∧
    identRelC.evaluate identBalancedC = false := by
  decide

/-- C5: every balancer checks `current_label != 0` before touching the
scene and raises the `ValueError` with the scene unmutated (the `raised`
result carries the tensor exactly as passed in). -/
theorem balance_nonzero_label_raises (currentLabel : Int) (h : currentLabel ≠ 0)
    (r1 : OneDAdjacentRelation) (o1 : Scene) (i1 j1 : Nat) (sh1 : Int)
    (r2 : MultipleDAdjacentRelation) (o2 : Scene) (i2 j2 k2 : Nat) (sh2 : Int)
    (r3 : ColorAboveColorRelation) (o3 : Scene) (rc3 p3 : Nat)
    (d3 : Nat → Int × Int) (f3 : Nat)
    (r4 : ObjectCountRelation) (o4 : Scene) (k4 : Nat) (sc4 na4 : List Nat)
    (n4 : Nat) (fc4 : List Nat)
    (r5 : IdenticalObjectsRelation) (o5 : Scene) (i5 j5 : Nat) :
    r1.balance o1 currentLabel i1 j1 sh1 = .raised balanceErrorMsg o1 ∧
    r2.balance o2 currentLabel i2 j2 k2 sh2 = .raised balanceErrorMsg o2 ∧
    r3.balance o3 currentLabel rc3 p3 d3 f3 = some (.raised balanceErrorMsg o3) ∧
    r4.balance o4 currentLabel k4 sc4 na4 n4 fc4 = .raised balanceErrorMsg o4 ∧
    r5.balance o5 currentLabel i5 j5 = .raised balanceErrorMsg o5 := by
  refine ⟨?_, ?_, ?_, ?_, ?_⟩
  · rw [OneDAdjacentRelation.balance, if_pos h]
  · rw [MultipleDAdjacentRelation.balance, if_pos h]
  · rw [ColorAboveColorRelation.balance, if_pos h]
  · rw [ObjectCountRelation.balance, if_pos h]
  · rw [IdenticalObjectsRelation.balance, if_pos h]

/-- C5 witness: the five balancers at concrete inputs with
`current_label = 1`. -/
theorem balance_nonzero_label_raises_witness :
    oneDRelC.balance identSceneC 1 0 1 0 = .raised balanceErrorMsg identSceneC ∧
    multiDRelC.balance identSceneC 1 0 1 0 0 = .raised balanceErrorMsg identSceneC ∧
    stuckRel.balance stuckScene 1 0 0 stuckDraws 5 =
      some (.raised balanceErrorMsg stuckScene) ∧
    objCountRelC.balance identSceneC 1 0 [] [] 0 [] = .raised balanceErrorMsg identSceneC ∧
    identRelC.balance identSceneC 1 0 1 = .raised balanceErrorMsg identSceneC :=
  balance_nonzero_label_raises 1 (by decide) oneDRelC identSceneC 0 1 0
    multiDRelC identSceneC 0 1 0 0 stuckRel stuckScene 0 0 stuckDraws 5
    objCountRelC identSceneC 0 [] [] 0 [] identRelC identSceneC 0 1

/-- C6 counterexample: the collision-resolution loop of
`ColorAboveColorRelation.balance` is not bounded.  On `stuckScene` with
the (unique admissible) draw stream `stuckDraws`, the loop reports a
collision forever — both objects and every proposal sit in the single
`x = 0` column, so the axis-swapped collision test of
`_object_in_position` never goes false — and for every fuel the
embedding reports the loop still running, with no error ever raised:
the Python loop has no maximum iteration count at all, only the
`stuck_count_to_perturb_x` escalation threshold. -/
theorem colorAbove_collision_loop_spins_cex : collisionLoopSpinsOnStuckScene :=
  fun fuel => stuck_balance_none stuckDraws (fun _ => rfl) fuel

/-- C6 (amended): the collision loop retries while
`_object_in_position` reports a collision — which, through the
`.unsqueeze(0)`/`all(dim=1)` axis swap, means all objects share the
proposal's `x` or all share its `y`, not that the proposed cell is
occupied — escalating (randomizing `x` as well as `y`) once the stuck
count passes the configurable `stuck_count_to_perturb_x`; it has no
maximum iteration count and never fails with an error.  On
`stuckScene`, where every object and every admissible proposal share
the single `x = 0` column, every admissible draw stream (x in
`[x_min, x_max - 1]`, y in `[max_below_color_position, y_max - 1]`)
keeps it looping for every iteration budget. -/
theorem colorAbove_collision_loop_no_bound (draws : Nat → Int × Int)
    (hx : ∀ k, stuckRel.xMin ≤ (draws k).1 ∧ (draws k).1 ≤ stuckRel.xMax - 1)
    (hy : ∀ k, stuckRel.maxBelowColorPosition stuckScene ≤ (draws k).2 ∧
      (draws k).2 ≤ stuckRel.yMax - 1) (fuel : Nat) :
    stuckRel.balance stuckScene 0 0 0 draws fuel = none := by
  apply stuck_balance_none
  intro k
  have h := hx k
  have e1 : stuckRel.xMin = 0 := rfl
  have e2 : stuckRel.xMax = 1 := rfl
  rw [e1, e2] at h
  omega

/-- C6 witness: the amended theorem at the concrete draw stream and a
concrete fuel. -/
theorem colorAbove_collision_loop_no_bound_witness :
    stuckRel.balance stuckScene 0 0 0 stuckDraws 25 = none :=
  colorAbove_collision_loop_no_bound stuckDraws
    (fun _ => ⟨Int.le_refl 0, Int.le_refl 0⟩)
    (fun _ => ⟨Int.le_refl 1, Int.le_refl 1⟩) 25

/-- C9 counterexample: a configuration whose margins leave no legal
reference-object location (candidate list empty) does NOT fail at
construction: `__init__` completes normally, returning a builder state
with empty train and test location lists (a degenerate empty
partition), with no error raised before or during sampling. -/
theorem quinn_empty_candidates_cex :
    possibleReferenceObjectLocations emptyCfg = [] ∧
    quinnInit Unit Unit emptyCfg 33 =
      .ok { rngState := 33, propTrainToValidation := some (1 / 10),
            trainReferenceObjectLocations := [], testReferenceObjectLocations := [],
            trainDataset := none, validationDataset := none, testDatasets := none } := by
  constructor
  · decide
  · simp [quinnInit, possibleReferenceObjectLocations, splitTrainTest, pyRange,
      npShuffle, shuffleGo, rngAfterShuffle, emptyCfg, List.product]

/-- C9 (amended): when the candidate-location list computed at
construction is empty, construction succeeds anyway — no error is
raised — and both reference-location subsets are empty; the builder
proceeds toward producing degenerate empty datasets. -/
theorem quinn_empty_candidates_init (δ τ : Type) (cfg : QuinnConfig) (seed : Nat)
    (h : possibleReferenceObjectLocations cfg = []) :
    quinnInit δ τ cfg seed = .ok
      { rngState := rngAfterShuffle seed (possibleReferenceObjectLocations cfg).length,
        propTrainToValidation := cfg.propTrainToValidation,
        trainReferenceObjectLocations := [], testReferenceObjectLocations := [],
        trainDataset := none, validationDataset := none, testDatasets := none } := by
  have e : quinnInit δ τ cfg seed = .ok
      { rngState := rngAfterShuffle seed (possibleReferenceObjectLocations cfg).length,
        propTrainToValidation := cfg.propTrainToValidation,
        trainReferenceObjectLocations :=
          (npShuffle (possibleReferenceObjectLocations cfg) seed).take
            (⌊((possibleReferenceObjectLocations cfg).length : ℚ) *
              cfg.propTrainReferenceObjectLocations⌋).toNat,
        testReferenceObjectLocations :=
          (npShuffle (possibleReferenceObjectLocations cfg) seed).drop
            (⌊((possibleReferenceObjectLocations cfg).length : ℚ) *
              cfg.propTrainReferenceObjectLocations⌋).toNat,
        trainDataset := none, validationDataset := none, testDatasets := none } := rfl
  rw [e, h]
  simp [npShuffle, shuffleGo]

/-- C9 witness: the amended theorem at the concrete degenerate
configuration. -/
theorem quinn_empty_candidates_init_witness :
    quinnInit Unit Unit emptyCfg 33 = .ok
      { rngState := rngAfterShuffle 33 (possibleReferenceObjectLocations emptyCfg).length,
        propTrainToValidation := emptyCfg.propTrainToValidation,
        trainReferenceObjectLocations := [], testReferenceObjectLocations := [],
        trainDataset := none, validationDataset := none, testDatasets := none } :=
  quinn_empty_candidates_init Unit Unit emptyCfg 33 (by decide)

/-- After `get_test_datasets`, the builder's `test_datasets` field caches
exactly the returned mapping. -/
theorem getTestDatasets_stable (createTests : Nat → τ × Nat) (s : QuinnState δ τ) :
    ((getTestDatasets createTests s).2).testDatasets = some (getTestDatasets createTests s).1 := by
  rw [getTestDatasets]
  cases hd : s.testDatasets with
  | some ds => exact hd
  | none =>
    rcases hc : createTests s.rngState with ⟨ds, rng1⟩
    rfl

/-- `get_test_datasets` on a builder whose cache is filled returns the
cached mapping and leaves the state untouched. -/
theorem getTestDatasets_cached (createTests : Nat → τ × Nat) (s : QuinnState δ τ) (ds : τ)
    (h : s.testDatasets = some ds) : getTestDatasets createTests s = (ds, s) := by
  rw [getTestDatasets, h]

/-- After `get_training_dataset`, the builder's `train_dataset` field
caches exactly the returned dataset (the post-validation-split train
part when the validation split is enabled). -/
theorem getTrainingDataset_stable (createTraining : Nat → δ × Nat)
    (splitDataset : δ → ℚ → Nat → (δ × δ) × Nat) (s : QuinnState δ τ) :
    ((getTrainingDataset createTraining splitDataset s).2).trainDataset =
      some (getTrainingDataset createTraining splitDataset s).1 := by
  rw [getTrainingDataset]
  cases hd : s.trainDataset with
  | some ds => exact hd
  | none =>
    rcases hc : createTraining s.rngState with ⟨created, rng1⟩
    cases hp : s.propTrainToValidation with
    | none => rfl
    | some p =>
      dsimp only
      by_cases h0 : 0 < p
      · rw [if_pos h0]
      · rw [if_neg h0]

/-- `get_training_dataset` on a builder whose cache is filled returns the
cached dataset and leaves the state untouched. -/
theorem getTrainingDataset_cached (createTraining : Nat → δ × Nat)
    (splitDataset : δ → ℚ → Nat → (δ × δ) × Nat) (s : QuinnState δ τ) (ds : δ)
    (h : s.trainDataset = some ds) :
    getTrainingDataset createTraining splitDataset s = (ds, s) := by
  rw [getTrainingDataset, h]

/-- C8: the builder accessors are idempotent.  For every paradigm (any
`_create_training_dataset`, `_split_dataset` and `_create_test_datasets`
implementation) and every builder state, a second call to
`get_training_dataset` returns exactly the first call's dataset and
leaves the state unchanged (it reads the cache, it does not resample),
and likewise for `get_test_datasets`. -/
theorem quinn_accessors_idempotent (δ τ : Type) (createTraining : Nat → δ × Nat)
    (splitDataset : δ → ℚ → Nat → (δ × δ) × Nat) (createTests : Nat → τ × Nat)
    (s : QuinnState δ τ) :
    getTrainingDataset createTraining splitDataset
        (getTrainingDataset createTraining splitDataset s).2 =
      getTrainingDataset createTraining splitDataset s ∧
    getTestDatasets createTests (getTestDatasets createTests s).2 =
      getTestDatasets createTests s := by
  constructor
  · rw [getTrainingDataset_cached createTraining splitDataset _ _
      (getTrainingDataset_stable createTraining splitDataset s)]
  · rw [getTestDatasets_cached createTests _ _ (getTestDatasets_stable createTests s)]

/-- C3: `ColorAboveColorRelation.evaluate` implements the specified
predicate: true iff some above-color object's vertical coordinate is
greater than or equal to every below-color object's vertical coordinate;
in particular true when some above-color object exists and no
below-color object does, and false whenever no above-color object
exists. -/
theorem colorAboveColor_evaluate_spec (rel : ColorAboveColorRelation) (objects : Scene) :
    (rel.evaluate objects = true ↔
      ∃ o ∈ objects, rel.isAbove o = true ∧
        ∀ b ∈ objects, rel.isBelow b = true → coordOf b rel.yStart ≤ coordOf o rel.yStart) ∧
    ((∃ o ∈ objects, rel.isAbove o = true) → (∀ b ∈ objects, rel.isBelow b = false) →
      rel.evaluate objects = true) ∧
    ((∀ o ∈ objects, rel.isAbove o = false) → rel.evaluate objects = false) := by
  have main : rel.evaluate objects = true ↔
      ∃ o ∈ objects, rel.isAbove o = true ∧
        ∀ b ∈ objects, rel.isBelow b = true → coordOf b rel.yStart ≤ coordOf o rel.yStart := by
    simp only [ColorAboveColorRelation.evaluate]
    split_ifs with h1 h2
    · simp only [List.length_eq_zero, List.map_eq_nil_iff, List.filter_eq_nil_iff] at h1
      constructor
      · intro h; exact absurd h (by simp)
      · rintro ⟨o, ho, hab, -⟩
        exact absurd hab (by simpa using h1 o ho)
    · simp only [List.length_eq_zero, List.map_eq_nil_iff, List.filter_eq_nil_iff] at h2
      have h1' : ∃ o ∈ objects, rel.isAbove o = true := by
        by_contra hc
        push_neg at hc
        apply h1
        simp only [List.length_eq_zero, List.map_eq_nil_iff, List.filter_eq_nil_iff]
        intro o ho
        simpa using hc o ho
      obtain ⟨o, ho, hab⟩ := h1'
      simp only [true_iff]
      exact ⟨o, ho, hab, fun b hb hbel => absurd hbel (by simpa using h2 b hb)⟩
    · rw [List.any_eq_true]
      constructor
      · rintro ⟨ay, hay, hall⟩
        rw [List.mem_map] at hay
        obtain ⟨o, ho, rfl⟩ := hay
        rw [List.mem_filter] at ho
        refine ⟨o, ho.1, ho.2, fun b hb hbel => ?_⟩
        rw [List.all_eq_true] at hall
        have := hall (coordOf b rel.yStart)
          (List.mem_map.mpr ⟨b, List.mem_filter.mpr ⟨hb, hbel⟩, rfl⟩)
        exact by simpa using this
      · rintro ⟨o, ho, hab, hall⟩
        refine ⟨coordOf o rel.yStart,
          List.mem_map.mpr ⟨o, List.mem_filter.mpr ⟨ho, hab⟩, rfl⟩, ?_⟩
        rw [List.all_eq_true]
        intro by1 hby
        rw [List.mem_map] at hby
        obtain ⟨b, hb, rfl⟩ := hby
        rw [List.mem_filter] at hb
        exact by simpa using hall b hb.1 hb.2
  refine ⟨main, ?_, ?_⟩
  · rintro ⟨o, ho, hab⟩ hnob
    rw [main]
    exact ⟨o, ho, hab, fun b hb hbel => absurd hbel (by simp [hnob b hb])⟩
  · intro hnoa
    cases he : rel.evaluate objects with
    | false => rfl
    | true =>
      rw [main] at he
      obtain ⟨o, ho, hab, -⟩ := he
      rw [hnoa o ho] at hab
      cases hab

/-- The positive count never exceeds the batch length. -/
theorem countTrue_le_length (l : List Bool) : countTrue l ≤ l.length :=
  List.length_filter_le _ _

/-- Resampling replaces labels in place: the batch length is unchanged. -/
theorem resampleLabels_length (t : Bool) : ∀ (l : List Bool) (fresh : List Bool),
    (resampleLabels l t fresh).length = l.length := by
  intro l
  induction l with
  | nil => intro fresh; rfl
  | cons b bs ih =>
    intro fresh
    rw [resampleLabels]
    split
    · simp [ih]
    · simp [ih]

/-- Unfolding `countTrue` over a cons. -/
theorem countTrue_cons (b : Bool) (l : List Bool) :
    countTrue (b :: l) = (if b then 1 else 0) + countTrue l := by
  cases b <;> simp [countTrue, List.filter, Nat.add_comm]

/-- Setting the first `k` negative labels to positive raises the positive
count by exactly `min k (number of negatives)`. -/
theorem countTrue_setFirstK_false_true : ∀ (l : List Bool) (k : Nat),
    countTrue (setFirstK l false true k) = countTrue l + min k (l.length - countTrue l) := by
  intro l
  induction l with
  | nil => intro k; simp [setFirstK, countTrue]
  | cons b bs ih =>
    intro k
    rw [setFirstK]
    cases k with
    | zero => simp
    | succ k' =>
      have hle := countTrue_le_length bs
      cases b with
      | false =>
        rw [if_neg (Nat.succ_ne_zero k'), if_pos rfl, Nat.succ_sub_one]
        rw [countTrue_cons, countTrue_cons, ih k']
        simp only [if_true]
        simp only [Bool.false_eq_true, if_false]
        simp only [List.length_cons]
        omega
      | true =>
        rw [if_neg (Nat.succ_ne_zero k'), if_neg (by simp)]
        rw [countTrue_cons, countTrue_cons, ih (k' + 1)]
        simp only [if_true]
        simp only [List.length_cons]
        omega

/-- Whenever the correction loop of the directed balanced generator
(converting negatives to positives) returns a batch, its positive count
is exactly `batch_size // 2`: the in-loop return fires only at that
count, and the balancing tail flips exactly the shortfall. -/
theorem smartLoop_ok_balanced (maxDepth bs : Nat) (draw : Nat → List Bool) :
    ∀ (fuel : Nat) (labels : List Bool) (depth : Nat), labels.length = bs →
      ∀ out, smartLoop true maxDepth (bs / 2) draw fuel labels depth = .ok out →
        countTrue out = bs / 2 := by
  intro fuel
  induction fuel with
  | zero => intro labels depth hlen out h; exact absurd h (by simp [smartLoop])
  | succ n ih =>
    intro labels depth hlen out h
    rw [smartLoop] at h
    dsimp only at h
    split at h
    · split at h
      · exact absurd h (by simp)
      · split at h
        · rename_i hct
          cases h
          exact hct
        · exact ih _ _ ((resampleLabels_length _ _ _).trans hlen) out h
    · rename_i hcond
      simp only [decide_eq_true_eq] at hcond
      have hct : countTrue labels ≤ bs / 2 := by omega
      cases h
      rw [show (!true) = false from rfl]
      rw [countTrue_setFirstK_false_true]
      have hhalf : bs / 2 ≤ bs := Nat.div_le_self bs 2
      have hlen2 := countTrue_le_length labels
      rw [hlen] at hlen2
      have habs : ((countTrue labels : Int) - ((bs / 2 : Nat) : Int)).natAbs
          = bs / 2 - countTrue labels := by
        omega
      rw [habs]
      omega

/-- An all-positive batch is all positive. -/
theorem countTrue_replicate_true (n : Nat) : countTrue (List.replicate n true) = n := by
  induction n with
  | zero => rfl
  | succ m ih =>
    rw [List.replicate_succ, countTrue_cons, ih]
    simp
    omega

/-- Resampling an all-positive batch with all-positive fresh draws leaves
it all positive. -/
theorem resampleLabels_replicate_true : ∀ (n : Nat) (fresh : List Bool),
    (∀ x ∈ fresh, x = true) →
    resampleLabels (List.replicate n true) true fresh = List.replicate n true := by
  intro n
  induction n with
  | zero => intro fresh _; rfl
  | succ m ih =>
    intro fresh hf
    rw [List.replicate_succ, resampleLabels, if_pos rfl]
    congr 1
    · cases fresh with
      | nil => rfl
      | cons f fs => exact hf f (by simp)
    · apply ih
      intro x hx
      apply hf
      cases fresh with
      | nil => simp at hx
      | cons f fs => exact List.mem_cons_of_mem f hx

/-- When every draw comes back all-positive (and the generator converts
negatives to positives), the correction loop makes no progress and hits
the recursion-depth check: the call raises, whatever the starting depth
and however much fuel the embedding grants. -/
theorem smartLoop_allTrue_error (maxDepth bs : Nat) (hlt : bs / 2 < bs) :
    ∀ fuel depth, smartLoop true maxDepth (bs / 2) (fun _ => List.replicate bs true) fuel
      (List.replicate bs true) depth = .error smartRecursionMsg := by
  intro fuel
  induction fuel with
  | zero => intro depth; rfl
  | succ n ih =>
    intro depth
    rw [smartLoop]
    dsimp only
    rw [if_pos (by rw [countTrue_replicate_true]; exact decide_eq_true hlt)]
    split
    · rfl
    · rw [resampleLabels_replicate_true bs _ (fun x hx => List.eq_of_mem_replicate hx)]
      rw [if_neg (by rw [countTrue_replicate_true]; omega)]
      exact ih (depth + 1)

/-- C4: the directed balanced generator configured to convert negatives
to positives, at any batch size of at least 2: (a) whenever the call
returns a batch (for any draw oracle whose batches have the requested
size), the returned label vector has exactly `batch_size // 2` positive
labels; (b) when the correction rounds keep exceeding need — e.g. every
draw comes back all-positive, which the negative-to-positive balancer
cannot fix — the call raises the recursion-depth `ValueError` instead of
returning a batch. -/
theorem smartBalanced_call_spec (maxDepth batchSize : Nat) (draw : Nat → List Bool)
    (hbs : 2 ≤ batchSize) (hdraw : ∀ k, (draw k).length = batchSize) :
    (∀ labels, smartBalancedCall true maxDepth batchSize draw = .ok labels →
      countTrue labels = batchSize / 2) ∧
    smartBalancedCall true maxDepth batchSize (fun _ => List.replicate batchSize true) =
      .error smartRecursionMsg := by
  have hne : batchSize ≠ 1 := by omega
  have hlt : batchSize / 2 < batchSize := Nat.div_lt_self (by omega) (by omega)
  constructor
  · intro labels h
    rw [smartBalancedCall, if_neg hne] at h
    dsimp only at h
    split at h
    · rename_i hct
      cases h
      exact hct
    · exact smartLoop_ok_balanced maxDepth batchSize draw _ _ _ (hdraw 0) labels h
  · rw [smartBalancedCall, if_neg hne]
    dsimp only
    rw [if_neg (by rw [countTrue_replicate_true]; omega)]
    exact smartLoop_allTrue_error maxDepth batchSize hlt (maxDepth + 1) 0

/-- C4 witness: batch size 4, recursion limit 3, a concrete oracle. -/
theorem smartBalanced_call_spec_witness :
    (∀ labels, smartBalancedCall true 3 4 (fun _ => [true, true, false, false]) = .ok labels →
      countTrue labels = 4 / 2) ∧
    smartBalancedCall true 3 4 (fun _ => List.replicate 4 true) = .error smartRecursionMsg :=
  smartBalanced_call_spec 3 4 (fun _ => [true, true, false, false]) (by decide) (fun _ => rfl)


/-- Unfolding `tensorIndex` over the head index. -/
theorem tensorIndex_cons {α : Type} (data : List α) (p : Nat) (rest : List Nat) :
    tensorIndex data (p :: rest) =
      (data.get? p).bind (fun v => (tensorIndex data rest).map (fun l => v :: l)) := by
  rw [tensorIndex, tensorIndex, List.mapM_cons]
  cases data.get? p with
  | none => rfl
  | some v =>
    cases rest.mapM (fun i => data.get? i) with
    | none => rfl
    | some l => rfl

/-- One out-of-range index anywhere in `perm` makes the whole indexing
raise (`IndexError`). -/
theorem tensorIndex_none_of_oob {α : Type} (data : List α) :
    ∀ (perm : List Nat) (i : Nat), i ∈ perm → data.length ≤ i →
      tensorIndex data perm = none := by
  intro perm
  induction perm with
  | nil => intro i hi; simp at hi
  | cons p rest ih =>
    intro i hi hlen
    rw [tensorIndex_cons]
    rcases List.mem_cons.mp hi with rfl | hmem
    · rw [List.get?_eq_none.mpr hlen]
      rfl
    · rw [ih i hmem hlen]
      cases data.get? p <;> rfl

/-- Indexing succeeds when every index is in range. -/
theorem tensorIndex_isSome_of_inbounds {α : Type} (data : List α) :
    ∀ (perm : List Nat), (∀ i ∈ perm, i < data.length) →
      (tensorIndex data perm).isSome := by
  intro perm
  induction perm with
  | nil => intro _; rfl
  | cons p rest ih =>
    intro hall
    rw [tensorIndex_cons]
    have hp : p < data.length := hall p (by simp)
    cases hd : data.get? p with
    | none => exact absurd (List.get?_eq_none.mp hd) (by omega)
    | some v =>
      have h2 := ih (fun i hi => hall i (List.mem_cons_of_mem p hi))
      cases hm : tensorIndex data rest with
      | none => rw [hm] at h2; simp at h2
      | some l => rfl

/-- When the accumulation loop stops, both pools hold at least `half`
examples. -/
theorem balancedAccLoop_some_lengths {α : Type} (half : Nat) (draw : Nat → List (α × Bool)) :
    ∀ (fuel k : Nat) (pos neg : List α) (p n : List α),
      balancedAccLoop half draw fuel k pos neg = some (p, n) →
      half ≤ p.length ∧ half ≤ n.length := by
  intro fuel
  induction fuel with
  | zero => intro k pos neg p n h; exact absurd h (by simp [balancedAccLoop])
  | succ m ih =>
    intro k pos neg p n h
    rw [balancedAccLoop] at h
    split at h
    · exact ih _ _ _ _ _ h
    · rename_i hcond
      push_neg at hcond
      cases h
      omega

/-- C10: the post-hoc balanced generator cannot return an odd batch of
size at least 3.  After truncating both pools to `half = batch_size // 2`
the concatenated data has length `2 * half = batch_size - 1`, and the
final permutation `torch.randperm(batch_size)` contains the index
`batch_size - 1`, which is out of range — the call raises instead of
returning, whatever the draws and however long the accumulation loop
ran.  Batch size 1 bypasses balancing and returns, and for even batch
sizes of at least 2 the call returns whenever the accumulation loop
finishes. -/
theorem balancedBatch_call_spec (α : Type) (batchSize : Nat) (draw : Nat → List (α × Bool))
    (perm : List Nat) (fuel : Nat) :
    (batchSize % 2 = 1 → 3 ≤ batchSize → perm.Perm (List.range batchSize) →
      balancedBatchCall batchSize draw perm fuel = none) ∧
    (batchSize = 1 → (balancedBatchCall batchSize draw perm fuel).isSome) ∧
    (batchSize % 2 = 0 → 2 ≤ batchSize → perm.Perm (List.range batchSize) →
      ∀ pos neg, balancedAccLoop (batchSize / 2) draw fuel 0 [] [] = some (pos, neg) →
        (balancedBatchCall batchSize draw perm fuel).isSome) := by
  refine ⟨?_, ?_, ?_⟩
  · intro hodd h3 hperm
    have hne : batchSize ≠ 1 := by omega
    rw [balancedBatchCall, if_neg hne]
    dsimp only
    cases hacc : balancedAccLoop (batchSize / 2) draw fuel 0 [] [] with
    | none => rfl
    | some pn =>
      rcases pn with ⟨pos, neg⟩
      obtain ⟨hp, hn⟩ := balancedAccLoop_some_lengths (batchSize / 2) draw fuel 0 [] [] pos neg hacc
      dsimp only
      have hdlen : (pos.take (batchSize / 2) ++ neg.take (batchSize / 2)).length
          = batchSize - 1 := by
        rw [List.length_append, List.length_take, List.length_take]
        omega
      have hmem : batchSize - 1 ∈ perm :=
        hperm.mem_iff.mpr (List.mem_range.mpr (by omega))
      rw [tensorIndex_none_of_oob (pos.take (batchSize / 2) ++ neg.take (batchSize / 2))
        perm (batchSize - 1) hmem (by rw [hdlen])]
  · intro h1
    subst h1
    rw [balancedBatchCall]
    rfl
  · intro heven h2 hperm pos neg hacc
    have hne : batchSize ≠ 1 := by omega
    rw [balancedBatchCall, if_neg hne]
    dsimp only
    rw [hacc]
    dsimp only
    obtain ⟨hp, hn⟩ := balancedAccLoop_some_lengths (batchSize / 2) draw fuel 0 [] [] pos neg hacc
    have hdlen : (pos.take (batchSize / 2) ++ neg.take (batchSize / 2)).length = batchSize := by
      rw [List.length_append, List.length_take, List.length_take]
      omega
    have hllen : (List.replicate (batchSize / 2) true ++
        List.replicate (batchSize / 2) false).length = batchSize := by
      rw [List.length_append, List.length_replicate, List.length_replicate]
      omega
    have hd := tensorIndex_isSome_of_inbounds
      (pos.take (batchSize / 2) ++ neg.take (batchSize / 2)) perm
      (fun i hi => by rw [hdlen]; exact List.mem_range.mp (hperm.mem_iff.mp hi))
    have hl := tensorIndex_isSome_of_inbounds
      (List.replicate (batchSize / 2) true ++ List.replicate (batchSize / 2) false) perm
      (fun i hi => by rw [hllen]; exact List.mem_range.mp (hperm.mem_iff.mp hi))
    obtain ⟨d, hd⟩ := Option.isSome_iff_exists.mp hd
    obtain ⟨l, hl⟩ := Option.isSome_iff_exists.mp hl
    rw [hd, hl]
    rfl

/-- C10 witness: batch size 3 with a concrete draw oracle and
permutation. -/
theorem balancedBatch_call_spec_witness :
    ((3 % 2 = 1 → 3 ≤ 3 → List.Perm [2, 0, 1] (List.range 3) →
      balancedBatchCall 3 (fun _ => [((7 : Nat), true), (8, false)]) [2, 0, 1] 5 = none) ∧
    (3 = 1 → (balancedBatchCall 3 (fun _ => [((7 : Nat), true), (8, false)]) [2, 0, 1] 5).isSome) ∧
    (3 % 2 = 0 → 2 ≤ 3 → List.Perm [2, 0, 1] (List.range 3) →
      ∀ pos neg, balancedAccLoop (3 / 2) (fun _ => [((7 : Nat), true), (8, false)]) 5 0 [] []
          = some (pos, neg) →
        (balancedBatchCall 3 (fun _ => [((7 : Nat), true), (8, false)]) [2, 0, 1] 5).isSome)) :=
  balancedBatch_call_spec Nat 3 (fun _ => [((7 : Nat), true), (8, false)]) [2, 0, 1] 5


/-- The extraction shuffle is a permutation of its input, whatever the
rng stream holds. -/
theorem shuffleGo_perm {α : Type} : ∀ (fuel : Nat) (l : List α) (s : Nat),
    (shuffleGo fuel l s).Perm l := by
  intro fuel
  induction fuel with
  | zero => intro l s; exact List.Perm.refl l
  | succ n ih =>
    intro l s
    match l with
    | [] => exact List.Perm.refl _
    | a :: rest =>
      rw [shuffleGo]
      split
      · exact List.Perm.refl _
      · rename_i x back h
        have hsplit : (a :: rest).take (s % (a :: rest).length) ++ (x :: back) = a :: rest := by
          rw [← h]
          exact List.take_append_drop _ _
        have hmid := @List.perm_middle α x ((a :: rest).take (s % (a :: rest).length)) back
        rw [hsplit] at hmid
        exact ((ih _ _).cons x).trans hmid.symm

/-- `rng.shuffle(items)` permutes `items`. -/
theorem npShuffle_perm {α : Type} (l : List α) (s : Nat) : (npShuffle l s).Perm l :=
  shuffleGo_perm l.length l s

/-- A `range(a, b)` holds no duplicates. -/
theorem pyRange_nodup (a b : Int) : (pyRange a b).Nodup := by
  rw [pyRange]
  refine List.Nodup.map ?_ (List.nodup_range ((b - a).toNat))
  intro x y hxy
  simpa using hxy

/-- The candidate reference-object locations (an `itertools.product` of
two ranges) hold no duplicates. -/
theorem possibleReferenceObjectLocations_nodup (cfg : QuinnConfig) :
    (possibleReferenceObjectLocations cfg).Nodup :=
  List.Nodup.product (pyRange_nodup _ _) (pyRange_nodup _ _)

/-- C7: for every builder configuration and seed, construction succeeds
and the train/test reference-object-location subsets are disjoint, their
union is exactly the full candidate-location set, and a second
construction with the same configuration and seed produces the identical
partition (the seeded rng is a deterministic function of the seed). -/
theorem quinn_reference_location_partition (δ τ : Type) (cfg : QuinnConfig) (seed : Nat) :
    ∃ s, quinnInit δ τ cfg seed = .ok s ∧
      (∀ loc, loc ∈ s.trainReferenceObjectLocations →
        loc ∉ s.testReferenceObjectLocations) ∧
      (∀ loc, (loc ∈ s.trainReferenceObjectLocations ∨
          loc ∈ s.testReferenceObjectLocations) ↔
        loc ∈ possibleReferenceObjectLocations cfg) ∧
      (∀ s2, quinnInit δ τ cfg seed = .ok s2 →
        s2.trainReferenceObjectLocations = s.trainReferenceObjectLocations ∧
        s2.testReferenceObjectLocations = s.testReferenceObjectLocations) := by
  have e : quinnInit δ τ cfg seed = .ok
      { rngState := rngAfterShuffle seed (possibleReferenceObjectLocations cfg).length,
        propTrainToValidation := cfg.propTrainToValidation,
        trainReferenceObjectLocations :=
          (npShuffle (possibleReferenceObjectLocations cfg) seed).take
            (⌊((possibleReferenceObjectLocations cfg).length : ℚ) *
              cfg.propTrainReferenceObjectLocations⌋).toNat,
        testReferenceObjectLocations :=
          (npShuffle (possibleReferenceObjectLocations cfg) seed).drop
            (⌊((possibleReferenceObjectLocations cfg).length : ℚ) *
              cfg.propTrainReferenceObjectLocations⌋).toNat,
        trainDataset := none, validationDataset := none, testDatasets := none } := rfl
  refine ⟨_, e, ?_, ?_, ?_⟩
  · intro loc hl hr
    have hperm := npShuffle_perm (possibleReferenceObjectLocations cfg) seed
    have hnd : (npShuffle (possibleReferenceObjectLocations cfg) seed).Nodup :=
      hperm.nodup_iff.mpr (possibleReferenceObjectLocations_nodup cfg)
    exact List.disjoint_take_drop hnd (le_refl _) hl hr
  · intro loc
    have hperm := npShuffle_perm (possibleReferenceObjectLocations cfg) seed
    constructor
    · rintro (hl | hr)
      · exact hperm.mem_iff.mp (List.take_subset _ _ hl)
      · exact hperm.mem_iff.mp (List.drop_subset _ _ hr)
    · intro hmem
      have hsh : loc ∈ npShuffle (possibleReferenceObjectLocations cfg) seed :=
        hperm.mem_iff.mpr hmem
      rw [← List.take_append_drop
        (⌊((possibleReferenceObjectLocations cfg).length : ℚ) *
          cfg.propTrainReferenceObjectLocations⌋).toNat
        (npShuffle (possibleReferenceObjectLocations cfg) seed)] at hsh
      exact List.mem_append.mp hsh
  · intro s2 h2
    rw [e] at h2
    injection h2 with h3
    rw [← h3]
    exact ⟨rfl, rfl⟩


/-- Reading back a width-1 field write. -/
theorem coordOf_set_self (o : Obj) (k : Nat) (v : Int) (hk : k < o.length) :
    coordOf (o.set k v) k = v := by
  simp [coordOf, List.getD_eq_getElem?_getD, List.getElem?_set_self hk]

/-- A write to another entry leaves a field unchanged. -/
theorem coordOf_set_ne (o : Obj) (j k : Nat) (v : Int) (h : j ≠ k) :
    coordOf (o.set j v) k = coordOf o k := by
  simp [coordOf, List.getD_eq_getElem?_getD, List.getElem?_set_ne h]

/-- In-place writes keep the scene size. -/
theorem length_setCoord (objects : Scene) (i k : Nat) (v : Int) :
    (setCoord objects i k v).length = objects.length := by
  simp [setCoord]

/-- The written object after `setCoord`. -/
theorem getD_setCoord_self (objects : Scene) (i k : Nat) (v : Int) (hi : i < objects.length) :
    (setCoord objects i k v).getD i [] = (objects.getD i []).set k v := by
  simp [setCoord, List.getD_eq_getElem?_getD, List.getElem?_set_self hi]

/-- Other objects after `setCoord`. -/
theorem getD_setCoord_ne (objects : Scene) (i k : Nat) (v : Int) (j : Nat) (hij : i ≠ j) :
    (setCoord objects i k v).getD j [] = objects.getD j [] := by
  simp [setCoord, List.getD_eq_getElem?_getD, List.getElem?_set_ne hij]

/-- An in-range `getD` is a member of the list. -/
theorem getD_mem_of_lt (objects : Scene) (i : Nat) (hi : i < objects.length) :
    objects.getD i [] ∈ objects := by
  rw [List.getD_eq_getElem?_getD, List.getElem?_eq_getElem hi]
  exact List.getElem_mem hi

/-- `getD` through a `map` at an in-range index. -/
theorem getD_map_coord (objects : Scene) (f : Obj → Int) (i : Nat) (hi : i < objects.length) :
    (objects.map f).getD i 0 = f (objects.getD i []) := by
  rw [List.getD_eq_getElem?_getD, List.getElem?_map, List.getElem?_eq_getElem hi,
    List.getD_eq_getElem?_getD, List.getElem?_eq_getElem hi]
  rfl

/-- The 1-D adjacency evaluator accepts any scene with a witness pair at
coordinate distance exactly 1. -/
theorem oneD_evaluate_of_pair (rel : OneDAdjacentRelation) (objects : Scene) (i j : Nat)
    (hi : i < objects.length) (hj : j < objects.length)
    (h : (coordOf (objects.getD i []) rel.relevantStart
      - coordOf (objects.getD j []) rel.relevantStart).natAbs = 1) :
    rel.evaluate objects = true := by
  rw [OneDAdjacentRelation.evaluate]
  simp only [List.length_map]
  rw [List.any_eq_true]
  refine ⟨i, List.mem_range.mpr (by simpa using hi), ?_⟩
  rw [List.any_eq_true]
  refine ⟨j, List.mem_range.mpr (by simpa using hj), ?_⟩
  rw [getD_map_coord _ _ _ hi, getD_map_coord _ _ _ hj]
  simpa using h

/-- Writing a coordinate at unit distance from object `j`'s coordinate
makes the 1-D adjacency relation hold. -/
theorem oneD_evaluate_setCoord (rel : OneDAdjacentRelation) (T : Scene) (i j : Nat) (v : Int)
    (hij : i ≠ j) (hi : i < T.length) (hj : j < T.length)
    (hwfi : rel.relevantStart < (T.getD i []).length)
    (hdist : (v - coordOf (T.getD j []) rel.relevantStart).natAbs = 1) :
    rel.evaluate (setCoord T i rel.relevantStart v) = true := by
  apply oneD_evaluate_of_pair rel _ i j
  · rw [length_setCoord]; exact hi
  · rw [length_setCoord]; exact hj
  · rw [getD_setCoord_self _ _ _ _ hi, coordOf_set_self _ _ _ hwfi,
      getD_setCoord_ne _ _ _ _ _ hij]
    exact hdist

/-- The 1-D adjacency balancer is label-exact: on a scene of at least
two full-width objects, with the distinct randperm indices and a +-1
shift sign, the returned scene always evaluates positive (the boundary
branches land exactly one cell away from object `j`, the interior branch
shifts by exactly one). -/
theorem oneDAdjacent_balance_label_exact (rel : OneDAdjacentRelation) (objects : Scene)
    (i j : Nat) (sh : Int) (hij : i ≠ j) (hi : i < objects.length) (hj : j < objects.length)
    (hwf : ∀ o ∈ objects, rel.relevantStart < o.length)
    (hsh : sh = 1 ∨ sh = -1) :
    ∀ s2, rel.balance objects 0 i j sh = .ok s2 → rel.evaluate s2 = true := by
  intro s2 hbal
  rw [OneDAdjacentRelation.balance, if_neg (by simp)] at hbal
  dsimp only at hbal
  have hwfi : rel.relevantStart < (objects.getD i []).length := hwf _ (getD_mem_of_lt _ _ hi)
  have hA1 : coordOf ((setCoord objects i rel.relevantStart
      (coordOf (objects.getD j []) rel.relevantStart)).getD i []) rel.relevantStart
      = coordOf (objects.getD j []) rel.relevantStart := by
    rw [getD_setCoord_self _ _ _ _ hi, coordOf_set_self _ _ _ hwfi]
  have hA2 : coordOf ((setCoord objects i rel.relevantStart
      (coordOf (objects.getD j []) rel.relevantStart)).getD j []) rel.relevantStart
      = coordOf (objects.getD j []) rel.relevantStart := by
    rw [getD_setCoord_ne _ _ _ _ _ hij]
  have hi1 : i < (setCoord objects i rel.relevantStart
      (coordOf (objects.getD j []) rel.relevantStart)).length := by
    rw [length_setCoord]; exact hi
  have hj1 : j < (setCoord objects i rel.relevantStart
      (coordOf (objects.getD j []) rel.relevantStart)).length := by
    rw [length_setCoord]; exact hj
  have hwfi1 : rel.relevantStart < ((setCoord objects i rel.relevantStart
      (coordOf (objects.getD j []) rel.relevantStart)).getD i []).length := by
    rw [getD_setCoord_self _ _ _ _ hi]
    simpa using hwfi
  split at hbal
  · rename_i hc1
    cases hbal
    apply oneD_evaluate_setCoord rel _ i j _ hij hi1 hj1 hwfi1
    rw [hA2]
    rw [hA1] at hc1
    omega
  · rename_i hc1
    split at hbal
    · rename_i hc2
      cases hbal
      apply oneD_evaluate_setCoord rel _ i j _ hij hi1 hj1 hwfi1
      rw [hA2]
      rw [hA1] at hc2
      omega
    · rename_i hc2
      cases hbal
      apply oneD_evaluate_setCoord rel _ i j _ hij hi1 hj1 hwfi1
      rw [hA2, hA1]
      rcases hsh with rfl | rfl <;> simp


/-- `getD` with default `[]` through a `map` at an in-range index. -/
theorem getD_map_pos (objects : Scene) (f : Obj → List Int) (i : Nat)
    (hi : i < objects.length) :
    (objects.map f).getD i [] = f (objects.getD i []) := by
  rw [List.getD_eq_getElem?_getD, List.getElem?_map, List.getElem?_eq_getElem hi,
    List.getD_eq_getElem?_getD, List.getElem?_eq_getElem hi]
  rfl

/-- L1 distance between two concrete position pairs. -/
theorem l1Dist_pair (a b c d : Int) : l1Dist [a, b] [c, d] = (a - c).natAbs + (b - d).natAbs := by
  simp [l1Dist]

/-- The N-D adjacency evaluator accepts any scene with a witness pair at
L1 distance exactly 1. -/
theorem multiD_evaluate_of_pair (rel : MultipleDAdjacentRelation) (objects : Scene) (i j : Nat)
    (hi : i < objects.length) (hj : j < objects.length)
    (h : l1Dist (rel.posOf (objects.getD i [])) (rel.posOf (objects.getD j [])) = 1) :
    rel.evaluate objects = true := by
  rw [MultipleDAdjacentRelation.evaluate]
  simp only [List.length_map]
  rw [List.any_eq_true]
  refine ⟨i, List.mem_range.mpr (by simpa using hi), ?_⟩
  rw [List.any_eq_true]
  refine ⟨j, List.mem_range.mpr (by simpa using hj), ?_⟩
  rw [getD_map_pos _ _ _ hi, getD_map_pos _ _ _ hj]
  simpa using h

/-- Writing one coordinate of object `i` — whose position currently
equals object `j`'s — to a value one unit from `j`'s coordinate makes
the N-D adjacency relation hold. -/
theorem multiD_evaluate_final (rel : MultipleDAdjacentRelation) (T : Scene) (i j : Nat)
    (st : Nat) (v : Int) (hij : i ≠ j) (hi : i < T.length) (hj : j < T.length)
    (hst : st = rel.xStart ∨ st = rel.yStart)
    (hxy : rel.xStart ≠ rel.yStart)
    (hwfx : rel.xStart < (T.getD i []).length) (hwfy : rel.yStart < (T.getD i []).length)
    (hpos : rel.posOf (T.getD i []) = rel.posOf (T.getD j []))
    (hdist : (v - coordOf (T.getD j []) st).natAbs = 1) :
    rel.evaluate (setCoord T i st v) = true := by
  rw [MultipleDAdjacentRelation.posOf, MultipleDAdjacentRelation.posOf] at hpos
  have hx := (List.cons.injEq _ _ _ _).mp hpos
  have hy := (List.cons.injEq _ _ _ _).mp hx.2
  apply multiD_evaluate_of_pair rel _ i j (by rw [length_setCoord]; exact hi)
    (by rw [length_setCoord]; exact hj)
  rw [getD_setCoord_self _ _ _ _ hi, getD_setCoord_ne _ _ _ _ _ hij]
  rcases hst with rfl | rfl
  · rw [MultipleDAdjacentRelation.posOf, MultipleDAdjacentRelation.posOf,
      coordOf_set_self _ _ _ hwfx, coordOf_set_ne _ _ _ _ hxy, l1Dist_pair]
    rw [hy.1]
    omega
  · rw [MultipleDAdjacentRelation.posOf, MultipleDAdjacentRelation.posOf,
      coordOf_set_self _ _ _ hwfy, coordOf_set_ne _ _ _ _ (Ne.symm hxy), l1Dist_pair]
    rw [hx.1]
    omega

/-- The N-D adjacency balancer is label-exact: after copying object
`j`'s position onto object `i` and perturbing one position field with
the boundary-aware unit shift, the scene always evaluates positive. -/
theorem multipleDAdjacent_balance_label_exact (rel : MultipleDAdjacentRelation)
    (objects : Scene) (i j sliceIndex : Nat) (sh : Int)
    (hij : i ≠ j) (hi : i < objects.length) (hj : j < objects.length)
    (hwfx : ∀ o ∈ objects, rel.xStart < o.length)
    (hwfy : ∀ o ∈ objects, rel.yStart < o.length)
    (hxy : rel.xStart ≠ rel.yStart)
    (hsh : sh = 1 ∨ sh = -1) :
    ∀ s2, rel.balance objects 0 i j sliceIndex sh = .ok s2 → rel.evaluate s2 = true := by
  intro s2 hbal
  rw [MultipleDAdjacentRelation.balance, if_neg (by simp)] at hbal
  dsimp only at hbal
  set xj := coordOf (objects.getD j []) rel.xStart with hxjdef
  set T1 := setCoord objects i rel.xStart xj with hT1def
  set yj := coordOf (T1.getD j []) rel.yStart with hyjdef
  set T2 := setCoord T1 i rel.yStart yj with hT2def
  have hwfxi : rel.xStart < (objects.getD i []).length := hwfx _ (getD_mem_of_lt _ _ hi)
  have hwfyi : rel.yStart < (objects.getD i []).length := hwfy _ (getD_mem_of_lt _ _ hi)
  have hT1len : T1.length = objects.length := length_setCoord _ _ _ _
  have hT2len : T2.length = objects.length := by
    rw [hT2def, length_setCoord, hT1len]
  have hi2 : i < T2.length := by omega
  have hj2 : j < T2.length := by omega
  have hT1j : T1.getD j [] = objects.getD j [] := getD_setCoord_ne _ _ _ _ _ hij
  have hT2j : T2.getD j [] = objects.getD j [] := by
    rw [hT2def, getD_setCoord_ne _ _ _ _ _ hij, hT1j]
  have hyj_eq : yj = coordOf (objects.getD j []) rel.yStart := by
    rw [hyjdef, hT1j]
  have hT2i : T2.getD i [] = ((objects.getD i []).set rel.xStart xj).set rel.yStart yj := by
    rw [hT2def, getD_setCoord_self _ _ _ _ (by omega), hT1def,
      getD_setCoord_self _ _ _ _ hi]
  have hwfxi2 : rel.xStart < (T2.getD i []).length := by
    rw [hT2i]
    simpa using hwfxi
  have hwfyi2 : rel.yStart < (T2.getD i []).length := by
    rw [hT2i]
    simpa using hwfyi
  have hposx : coordOf (T2.getD i []) rel.xStart = xj := by
    rw [hT2i, coordOf_set_ne _ _ _ _ (Ne.symm hxy), coordOf_set_self _ _ _ hwfxi]
  have hposy : coordOf (T2.getD i []) rel.yStart = yj := by
    rw [hT2i, coordOf_set_self]
    simpa using hwfyi
  have hpos : rel.posOf (T2.getD i []) = rel.posOf (T2.getD j []) := by
    rw [MultipleDAdjacentRelation.posOf, MultipleDAdjacentRelation.posOf, hT2j,
      hposx, hposy, hyj_eq]
  by_cases hsl : sliceIndex = 0
  · simp only [hsl, reduceIte] at hbal
    split at hbal
    · rename_i hc1
      cases hbal
      apply multiD_evaluate_final rel T2 i j rel.xStart _ hij hi2 hj2 (Or.inl rfl) hxy
        hwfxi2 hwfyi2 hpos
      rw [hposx] at hc1
      rw [hT2j, ← hxjdef]
      omega
    · rename_i hc1
      split at hbal
      · rename_i hc2
        cases hbal
        apply multiD_evaluate_final rel T2 i j rel.xStart _ hij hi2 hj2 (Or.inl rfl) hxy
          hwfxi2 hwfyi2 hpos
        rw [hposx] at hc2
        rw [hT2j, ← hxjdef]
        omega
      · rename_i hc2
        cases hbal
        apply multiD_evaluate_final rel T2 i j rel.xStart _ hij hi2 hj2 (Or.inl rfl) hxy
          hwfxi2 hwfyi2 hpos
        rw [hposx, hT2j, ← hxjdef]
        rcases hsh with rfl | rfl <;> simp
  · simp only [hsl, reduceIte] at hbal
    split at hbal
    · rename_i hc1
      cases hbal
      apply multiD_evaluate_final rel T2 i j rel.yStart _ hij hi2 hj2 (Or.inr rfl) hxy
        hwfxi2 hwfyi2 hpos
      rw [hposy] at hc1
      rw [hT2j, ← hyj_eq]
      omega
    · rename_i hc1
      split at hbal
      · rename_i hc2
        cases hbal
        apply multiD_evaluate_final rel T2 i j rel.yStart _ hij hi2 hj2 (Or.inr rfl) hxy
          hwfxi2 hwfyi2 hpos
        rw [hposy] at hc2
        rw [hT2j, ← hyj_eq]
        omega
      · rename_i hc2
        cases hbal
        apply multiD_evaluate_final rel T2 i j rel.yStart _ hij hi2 hj2 (Or.inr rfl) hxy
          hwfxi2 hwfyi2 hpos
        rw [hposy, hT2j, ← hyj_eq]
        rcases hsh with rfl | rfl <;> simp


/-- A one-hot vector has its declared width. -/
theorem oneHot_length (n idx : Nat) : (oneHot n idx).length = n := by
  simp [oneHot]

/-- Entries of a one-hot vector. -/
theorem oneHot_getD (n idx k : Nat) (hk : k < n) :
    (oneHot n idx).getD k 0 = if k = idx then 1 else 0 := by
  simp [oneHot, List.getD_eq_getElem?_getD, List.getElem?_map, List.getElem?_range hk]

/-- One-hot vectors of distinct in-range indices differ. -/
theorem oneHot_ne (n a b : Nat) (ha : a < n) (hab : a ≠ b) : oneHot n a ≠ oneHot n b := by
  intro h
  have h1 := oneHot_getD n a a ha
  have h2 := oneHot_getD n b a ha
  rw [h] at h1
  rw [h1, if_pos rfl, if_neg hab] at h2
  cases h2

/-- A scalar write outside a slice leaves the slice contents unchanged. -/
theorem sliceOf_set_outside (o : Obj) (k : Nat) (v : Int) (sl : FSlice)
    (h : k < sl.start ∨ sl.stop ≤ k) (hss : sl.start ≤ sl.stop) :
    sliceOf (o.set k v) sl = sliceOf o sl := by
  rw [sliceOf, sliceOf, List.set_take, List.drop_set]
  rcases h with h | h
  · rw [if_pos (by omega)]
  · rw [if_neg (by omega)]
    apply List.set_eq_of_length_le
    simp only [List.length_drop, List.length_take]
    omega

/-- A shape-matched slice assignment keeps the vector length. -/
theorem length_writeSlice (o : Obj) (sl : FSlice) (vals : List Int)
    (hss : sl.start ≤ sl.stop) (hstop : sl.stop ≤ o.length)
    (hw : vals.length = sl.stop - sl.start) :
    (writeSlice o sl vals).length = o.length := by
  rw [writeSlice]
  simp only [List.length_append, List.length_take, List.length_drop]
  omega

/-- Reading back a shape-matched slice assignment. -/
theorem sliceOf_writeSlice (o : Obj) (sl : FSlice) (vals : List Int)
    (hss : sl.start ≤ sl.stop) (hstop : sl.stop ≤ o.length)
    (hw : vals.length = sl.stop - sl.start) :
    sliceOf (writeSlice o sl vals) sl = vals := by
  rw [writeSlice, sliceOf]
  rw [List.take_left' (by simp only [List.length_append, List.length_take]; omega)]
  rw [List.drop_left' (by simp only [List.length_take]; omega)]

/-- An in-range `getD` over an index list is a member. -/
theorem getD_mem_nat (l : List Nat) (p : Nat) (hp : p < l.length) : l.getD p 0 ∈ l := by
  rw [List.getD_eq_getElem?_getD, List.getElem?_eq_getElem hp]
  exact List.getElem_mem hp

theorem foldl_max_le : ∀ (ys : List Int) (a : Int),
    a ≤ ys.foldl max a ∧ ∀ z ∈ ys, z ≤ ys.foldl max a := by
  intro ys
  induction ys with
  | nil => intro a; exact ⟨le_refl a, by simp⟩
  | cons y ys ih =>
    intro a
    constructor
    · exact le_trans (le_max_left a y) (ih (max a y)).1
    · intro z hz
      rcases List.mem_cons.mp hz with rfl | hz2
      · exact le_trans (le_max_right a z) (ih (max a z)).1
      · exact (ih (max a y)).2 z hz2

/-- `max_below_color_position` is at least every below-color object's
vertical coordinate. -/
theorem maxBelow_ge (rel : ColorAboveColorRelation) (T : Scene) :
    ∀ b ∈ T, rel.isBelow b = true →
      coordOf b rel.yStart ≤ rel.maxBelowColorPosition T := by
  intro b hb hbel
  rw [ColorAboveColorRelation.maxBelowColorPosition]
  have hmem : coordOf b rel.yStart ∈ (T.filter rel.isBelow).map (fun o => coordOf o rel.yStart) :=
    List.mem_map.mpr ⟨b, List.mem_filter.mpr ⟨hb, hbel⟩, rfl⟩
  cases hl : (T.filter rel.isBelow).map (fun o => coordOf o rel.yStart) with
  | nil => rw [hl] at hmem; cases hmem
  | cons y ys =>
    rw [hl] at hmem
    rcases List.mem_cons.mp hmem with heq | hmem2
    · rw [heq]; exact (foldl_max_le ys y).1
    · exact (foldl_max_le ys y).2 _ hmem2

/-- A position the collision loop accepts carries a `y` that was one of
the loop's `random.randint(max_below, y_max - 1)` draws. -/
theorem collisionLoop_some_y (rel : ColorAboveColorRelation) (T : Scene) (idx : Nat)
    (draws : Nat → Int × Int) : ∀ (fuel stuck : Nat) (nx ny : Int),
    rel.collisionLoop T idx draws fuel stuck = some (nx, ny) → ∃ k, ny = (draws k).2 := by
  intro fuel
  induction fuel with
  | zero => intro stuck nx ny h; cases h
  | succ n ih =>
    intro stuck nx ny h
    rw [ColorAboveColorRelation.collisionLoop] at h
    split at h
    all_goals
      split at h
      · exact ih _ _ _ h
      · injection h with h2
        injection h2 with hx hy
        exact ⟨stuck + 1, hy.symm⟩

/-- The written object after `writeSliceAt`. -/
theorem getD_writeSliceAt_self (objects : Scene) (i : Nat) (sl : FSlice) (vals : List Int)
    (hi : i < objects.length) :
    (writeSliceAt objects i sl vals).getD i [] = writeSlice (objects.getD i []) sl vals := by
  simp [writeSliceAt, List.getD_eq_getElem?_getD, List.getElem?_set_self hi]

/-- Other objects after `writeSliceAt`. -/
theorem getD_writeSliceAt_ne (objects : Scene) (i : Nat) (sl : FSlice) (vals : List Int)
    (j : Nat) (hij : i ≠ j) :
    (writeSliceAt objects i sl vals).getD j [] = objects.getD j [] := by
  simp [writeSliceAt, List.getD_eq_getElem?_getD, List.getElem?_set_ne hij]

/-- `writeSliceAt` keeps the scene size. -/
theorem length_writeSliceAt (objects : Scene) (i : Nat) (sl : FSlice) (vals : List Int) :
    (writeSliceAt objects i sl vals).length = objects.length := by
  simp [writeSliceAt]

/-- The color-above-color evaluator accepts any scene holding an
above-color object whose `y` dominates every below-color object's. -/
theorem colorAbove_evaluate_of_witness (rel : ColorAboveColorRelation) (T : Scene) (o : Obj)
    (ho : o ∈ T) (hab : rel.isAbove o = true)
    (hall : ∀ b ∈ T, rel.isBelow b = true →
      coordOf b rel.yStart ≤ coordOf o rel.yStart) :
    rel.evaluate T = true := by
  rw [ColorAboveColorRelation.evaluate]
  have hmem : coordOf o rel.yStart ∈ (T.filter rel.isAbove).map (fun x => coordOf x rel.yStart) :=
    List.mem_map.mpr ⟨o, List.mem_filter.mpr ⟨ho, hab⟩, rfl⟩
  rw [if_neg (by intro hlen; rw [List.length_eq_zero] at hlen; rw [hlen] at hmem; cases hmem)]
  split
  · rfl
  · rw [List.any_eq_true]
    refine ⟨coordOf o rel.yStart, hmem, ?_⟩
    rw [List.all_eq_true]
    intro z hz
    rw [List.mem_map] at hz
    obtain ⟨b, hb, rfl⟩ := hz
    rw [List.mem_filter] at hb
    simpa using hall b hb.1 hb.2

/-- The color-above-color balancer is label-exact whenever its collision
loop terminates: under the standard configuration (color slice of the
declared one-hot width, disjoint from the width-1 `x`/`y` fields,
distinct above/below color indices) the returned scene always evaluates
positive — the moved object is above-colored and sits at a drawn `y` at
or above every below-color object's height. -/
theorem colorAboveColor_balance_label_exact (rel : ColorAboveColorRelation) (objects : Scene)
    (recolorIdx pick : Nat) (draws : Nat → Int × Int) (fuel : Nat)
    (hrc : recolorIdx < objects.length)
    (hwfc : ∀ o ∈ objects, rel.colorSlice.stop ≤ o.length)
    (hwfy : ∀ o ∈ objects, rel.yStart < o.length)
    (hxc : rel.xStart < rel.colorSlice.start ∨ rel.colorSlice.stop ≤ rel.xStart)
    (hyc : rel.yStart < rel.colorSlice.start ∨ rel.colorSlice.stop ≤ rel.yStart)
    (hss : rel.colorSlice.start ≤ rel.colorSlice.stop)
    (hwidth : rel.colorSlice.stop - rel.colorSlice.start = rel.nTypes)
    (hai : rel.aboveColorIndex < rel.nTypes)
    (hne : rel.aboveColorIndex ≠ rel.belowColorIndex)
    (hpick : pick < (rel.aboveObjectIndices (rel.ensureAboveObject objects recolorIdx)).length)
    (hdraws : ∀ k, rel.maxBelowColorPosition (rel.ensureAboveObject objects recolorIdx)
      ≤ (draws k).2) :
    ∀ s2, rel.balance objects 0 recolorIdx pick draws fuel = some (.ok s2) →
      rel.evaluate s2 = true := by
  intro s2 hbal
  rw [ColorAboveColorRelation.balance, if_neg (by simp)] at hbal
  dsimp only at hbal
  set T1 := rel.ensureAboveObject objects recolorIdx with hT1
  set idx := (rel.aboveObjectIndices T1).getD pick 0 with hidx
  have hlen1 : T1.length = objects.length := by
    rw [hT1, ColorAboveColorRelation.ensureAboveObject]
    split
    · exact length_writeSliceAt _ _ _ _
    · rfl
  have hlT1 : ∀ m : Nat, (T1.getD m []).length = (objects.getD m []).length := by
    intro m
    rw [hT1, ColorAboveColorRelation.ensureAboveObject]
    split
    · by_cases hm : recolorIdx = m
      · subst hm
        rw [getD_writeSliceAt_self _ _ _ _ hrc]
        exact length_writeSlice _ _ _ hss (hwfc _ (getD_mem_of_lt _ _ hrc))
          (by rw [ColorAboveColorRelation.aboveTensor, oneHot_length]; omega)
      · rw [getD_writeSliceAt_ne _ _ _ _ _ hm]
    · rfl
  have hmemidx : idx ∈ rel.aboveObjectIndices T1 := by
    rw [hidx]
    exact getD_mem_nat _ _ hpick
  rw [ColorAboveColorRelation.aboveObjectIndices] at hmemidx
  have hfacts := List.mem_filter.mp hmemidx
  have hidxlt : idx < T1.length := List.mem_range.mp hfacts.1
  have habove : rel.isAbove (T1.getD idx []) = true := by simpa using hfacts.2
  cases hloop : rel.collisionLoop T1 idx draws fuel 0 with
  | none => rw [hloop] at hbal; cases hbal
  | some p =>
    rcases p with ⟨nx, ny⟩
    rw [hloop] at hbal
    dsimp only at hbal
    injection hbal with h1
    injection h1 with h2
    subst h2
    have hywf : rel.yStart < (T1.getD idx []).length := by
      rw [hlT1]
      exact hwfy _ (getD_mem_of_lt _ _ (by omega))
    have hT3i : (setCoord (setCoord T1 idx rel.xStart nx) idx rel.yStart ny).getD idx []
        = ((T1.getD idx []).set rel.xStart nx).set rel.yStart ny := by
      rw [getD_setCoord_self _ _ _ _ (by rw [length_setCoord]; omega),
        getD_setCoord_self _ _ _ _ (by omega)]
    have hcol : sliceOf (((T1.getD idx []).set rel.xStart nx).set rel.yStart ny)
        rel.colorSlice = sliceOf (T1.getD idx []) rel.colorSlice := by
      rw [sliceOf_set_outside _ _ _ _ hyc hss, sliceOf_set_outside _ _ _ _ hxc hss]
    have habove3 : rel.isAbove (((T1.getD idx []).set rel.xStart nx).set rel.yStart ny)
        = true := by
      rw [ColorAboveColorRelation.isAbove] at habove ⊢
      rw [hcol]
      exact habove
    have hyo : coordOf (((T1.getD idx []).set rel.xStart nx).set rel.yStart ny)
        rel.yStart = ny := by
      apply coordOf_set_self
      rw [List.length_set]
      exact hywf
    apply colorAbove_evaluate_of_witness rel _
      (((T1.getD idx []).set rel.xStart nx).set rel.yStart ny)
    · rw [← hT3i]
      apply getD_mem_of_lt
      rw [length_setCoord, length_setCoord]
      omega
    · exact habove3
    · intro b hb hbel
      rw [hyo]
      obtain ⟨m, hm, hbm⟩ := List.mem_iff_getElem.mp hb
      have hmlen : m < T1.length := by
        rw [length_setCoord, length_setCoord] at hm
        omega
      have hbD : (setCoord (setCoord T1 idx rel.xStart nx) idx rel.yStart ny).getD m []
          = b := by
        rw [List.getD_eq_getElem?_getD, List.getElem?_eq_getElem hm]
        simpa using hbm
      by_cases hmi : m = idx
      · exfalso
        subst hmi
        rw [hT3i] at hbD
        rw [← hbD] at hbel
        rw [ColorAboveColorRelation.isBelow] at hbel
        rw [hcol] at hbel
        rw [ColorAboveColorRelation.isAbove] at habove
        have he1 : sliceOf (T1.getD idx []) rel.colorSlice = rel.belowTensor := by
          exact eq_of_beq hbel
        have he2 : sliceOf (T1.getD idx []) rel.colorSlice = rel.aboveTensor := by
          exact eq_of_beq habove
        rw [he1] at he2
        exact oneHot_ne rel.nTypes rel.aboveColorIndex rel.belowColorIndex hai hne he2.symm
      · rw [getD_setCoord_ne _ _ _ _ _ (fun he => hmi he.symm),
          getD_setCoord_ne _ _ _ _ _ (fun he => hmi he.symm)] at hbD
        have hbmem : b ∈ T1 := by
          rw [← hbD]
          exact getD_mem_of_lt _ _ hmlen
        have hble := maxBelow_ge rel T1 b hbmem hbel
        obtain ⟨k, hk⟩ := collisionLoop_some_y rel T1 idx draws fuel 0 nx ny hloop
        have := hdraws k
        omega

/-! ## Supporting exactness facts for `ObjectCountRelation.balance` -/

/-- Counting filtered objects equals counting their indices over `range`. -/
theorem count_eq_index_count (p : Obj → Bool) : ∀ (T : Scene),
    (T.filter p).length = ((List.range T.length).filter (fun i => p (T.getD i []))).length := by
  intro T
  induction T with
  | nil => rfl
  | cons o rest ih =>
    rw [List.length_cons, List.range_succ_eq_map]
    rw [List.filter_cons]
    have hmap : (((List.range rest.length).map Nat.succ).filter
        (fun i => p ((o :: rest).getD i []))).length
        = ((List.range rest.length).filter (fun i => p (rest.getD i []))).length := by
      rw [List.filter_map]
      rw [List.length_map]
      congr 1
    by_cases hp : p o
    · rw [if_pos hp]
      rw [List.filter_cons, if_pos (by simpa [coordOf] using hp)]
      simp only [List.length_cons]
      rw [ih, ← hmap]
    · rw [if_neg hp]
      rw [List.filter_cons, if_neg (by simpa [coordOf] using hp)]
      rw [ih, ← hmap]

/-- Counting bookkeeping: if `P` holds and `Q` fails exactly on a duplicate-free index set `S` and they agree elsewhere, the `P`-count exceeds the `Q`-count by `|S|`. -/
theorem count_range_split : ∀ (n : Nat) (S : List Nat) (P Q : Nat → Bool),
    S.Nodup →
    (∀ i ∈ S, i < n ∧ P i = true ∧ Q i = false) →
    (∀ i, i < n → i ∉ S → Q i = P i) →
    ((List.range n).filter Q).length + S.length = ((List.range n).filter P).length := by
  intro n
  induction n with
  | zero =>
    intro S P Q hnd hsub hsame
    cases S with
    | nil => rfl
    | cons a S2 => exact absurd (hsub a (by simp)).1 (by omega)
  | succ n ih =>
    intro S P Q hnd hsub hsame
    rw [List.range_succ, List.filter_append, List.filter_append,
      List.length_append, List.length_append]
    by_cases hn : n ∈ S
    · have hPn := (hsub n hn).2.1
      have hQn := (hsub n hn).2.2
      have hlen : 0 < S.length := List.length_pos_of_mem hn
      have hel : (S.erase n).length = S.length - 1 := by
        rw [List.length_erase_of_mem hn]
      have IH := ih (S.erase n) P Q (hnd.erase n)
        (by
          intro i hi
          have hmem := hnd.mem_erase_iff.mp hi
          have h2 := hsub i hmem.2
          exact ⟨by omega, h2.2.1, h2.2.2⟩)
        (by
          intro i hilt hni
          apply hsame i (by omega)
          intro hiS
          apply hni
          exact hnd.mem_erase_iff.mpr ⟨by omega, hiS⟩)
      have hfq : (List.filter Q [n]).length = 0 := by simp [List.filter, hQn]
      have hfp : (List.filter P [n]).length = 1 := by simp [List.filter, hPn]
      omega
    · have IH := ih S P Q hnd
        (by
          intro i hi
          have h2 := hsub i hi
          have : i ≠ n := fun he => hn (he ▸ hi)
          exact ⟨by omega, h2.2.1, h2.2.2⟩)
        (by
          intro i hilt hni
          exact hsame i (by omega) hni)
      have hqp : Q n = P n := hsame n (by omega) hn
      have : (List.filter Q [n]).length = (List.filter P [n]).length := by
        simp [List.filter, hqp]
      omega

/-- Complement counting over `range`: negatives plus positives exhaust the indices. -/
theorem count_range_not (n : Nat) (P : Nat → Bool) :
    ((List.range n).filter (fun i => ! P i)).length + ((List.range n).filter P).length = n := by
  have := List.filter_append_perm P (List.range n)
  have hlen := this.length_eq
  rw [List.length_append] at hlen
  rw [List.length_range] at hlen
  omega

/-- Reading back the object just written into a scene. -/
theorem getD_set_self_scene (T : Scene) (i : Nat) (o : Obj) (hi : i < T.length) :
    (T.set i o).getD i [] = o := by
  simp [List.getD_eq_getElem?_getD, List.getElem?_set_self hi]

/-- Writing one scene slot leaves the others unchanged. -/
theorem getD_set_ne_scene (T : Scene) (i : Nat) (o : Obj) (j : Nat) (hij : i ≠ j) :
    (T.set i o).getD j [] = T.getD j [] := by
  simp [List.getD_eq_getElem?_getD, List.getElem?_set_ne hij]

/-- Generic characterisation of a left fold of keyed in-place updates over a duplicate-free key list: the scene size is kept, untouched slots are unchanged, and each keyed slot holds its update applied to the original object. -/
theorem foldl_update_facts {β : Type} (key : β → Nat) (up : β → Obj → Obj) :
    ∀ (S : List β) (T : Scene), (S.map key).Nodup →
      ((S.foldl (fun acc b => acc.set (key b) (up b (acc.getD (key b) []))) T).length
        = T.length) ∧
      (∀ i : Nat, i ∉ S.map key →
        (S.foldl (fun acc b => acc.set (key b) (up b (acc.getD (key b) []))) T).getD i []
          = T.getD i []) ∧
      (∀ b ∈ S, key b < T.length →
        (S.foldl (fun acc b => acc.set (key b) (up b (acc.getD (key b) []))) T).getD
          (key b) [] = up b (T.getD (key b) [])) := by
  intro S
  induction S with
  | nil =>
    intro T hnd
    exact ⟨rfl, fun i _ => rfl, fun b hb => absurd hb (by simp)⟩
  | cons b0 S2 ih =>
    intro T hnd
    rw [List.map_cons, List.nodup_cons] at hnd
    rw [List.foldl_cons]
    obtain ⟨IH1, IH2, IH3⟩ := ih (T.set (key b0) (up b0 (T.getD (key b0) []))) hnd.2
    refine ⟨?_, ?_, ?_⟩
    · rw [IH1, List.length_set]
    · intro i hi
      rw [List.map_cons, List.mem_cons] at hi
      push_neg at hi
      rw [IH2 i hi.2, getD_set_ne_scene _ _ _ _ (fun he => hi.1 he.symm)]
    · intro b hb hkb
      rcases List.mem_cons.mp hb with rfl | hb2
      · rw [IH2 _ hnd.1, getD_set_self_scene _ _ _ hkb]
      · have hne : key b0 ≠ key b := by
          intro he
          exact hnd.1 (he ▸ List.mem_map_of_mem key hb2)
        rw [IH3 b hb2 (by rw [List.length_set]; exact hkb),
          getD_set_ne_scene _ _ _ _ hne]

/-- A shape-matched slice assignment leaves every disjoint slice unchanged. -/
theorem sliceOf_writeSlice_outside (o : Obj) (sl sl2 : FSlice) (vals : List Int)
    (hss : sl.start ≤ sl.stop) (hstop : sl.stop ≤ o.length)
    (hw : vals.length = sl.stop - sl.start)
    (hdisj : sl2.stop ≤ sl.start ∨ sl.stop ≤ sl2.start) :
    sliceOf (writeSlice o sl vals) sl2 = sliceOf o sl2 := by
  rcases hdisj with hdj | hdj
  · rw [sliceOf, sliceOf, writeSlice]
    rw [List.take_append_of_le_length
      (by simp only [List.length_append, List.length_take]; omega)]
    rw [List.take_append_of_le_length (by simp only [List.length_take]; omega)]
    rw [List.take_take, Nat.min_eq_left (by omega)]
  · rw [sliceOf, sliceOf, List.drop_take, List.drop_take, writeSlice]
    have hdrop : (o.take sl.start ++ vals ++ o.drop sl.stop).drop sl2.start
        = o.drop sl2.start := by
      rw [List.drop_append_eq_append_drop]
      rw [List.drop_eq_nil_of_le
        (by simp only [List.length_append, List.length_take]; omega), List.nil_append]
      rw [List.drop_drop]
      congr 1
      simp only [List.length_append, List.length_take]
      omega
    rw [hdrop]

/-- Restatement of the fold characterisation for any fold body extensionally equal to the keyed update. -/
theorem foldl_update_facts2 {β : Type} (key : β → Nat) (up : β → Obj → Obj)
    (f : Scene → β → Scene)
    (hf : ∀ acc b, f acc b = acc.set (key b) (up b (acc.getD (key b) []))) :
    ∀ (S : List β) (T : Scene), (S.map key).Nodup →
      ((S.foldl f T).length = T.length) ∧
      (∀ i : Nat, i ∉ S.map key → (S.foldl f T).getD i [] = T.getD i []) ∧
      (∀ b ∈ S, key b < T.length →
        (S.foldl f T).getD (key b) [] = up b (T.getD (key b) [])) := by
  intro S T hnd
  have he : f = fun acc b => acc.set (key b) (up b (acc.getD (key b) [])) := by
    funext acc b
    exact hf acc b
  rw [he]
  exact foldl_update_facts key up S T hnd

/-- Every member of the first list of an equal-length `zip` appears in some pair. -/
theorem exists_zip_pair {α β : Type} : ∀ (l1 : List α) (l2 : List β),
    l1.length = l2.length → ∀ a ∈ l1, ∃ b, (a, b) ∈ l1.zip l2 := by
  intro l1
  induction l1 with
  | nil =>
    intro l2 h a ha
    cases ha
  | cons x xs ih =>
    intro l2 h a ha
    cases l2 with
    | nil => cases h
    | cons y ys =>
      rw [List.zip_cons_cons]
      rcases List.mem_cons.mp ha with rfl | ha2
      · exact ⟨y, List.mem_cons_self _ _⟩
      · obtain ⟨b, hb⟩ := ih ys (by simpa using h) a ha2
        exact ⟨b, List.mem_cons_of_mem _ hb⟩

/-- Reading a slice entry is reading the underlying vector at the offset position. -/
theorem getD_sliceOf (o : Obj) (sl : FSlice) (t : Nat)
    (ht : sl.start + t < sl.stop) (hstop : sl.stop ≤ o.length) :
    (sliceOf o sl).getD t 0 = o.getD (sl.start + t) 0 := by
  rw [sliceOf, List.getD_eq_getElem?_getD, List.getD_eq_getElem?_getD]
  rw [List.getElem?_drop]
  rw [List.getElem?_take_of_lt (by omega : sl.start + t < sl.stop)]

/-- Scenes whose objects satisfy a predicate at exactly the same indices have equal filtered counts. -/
theorem count_scene_congr (p : Obj → Bool) (T U : Scene) (hlen : U.length = T.length)
    (h : ∀ i, i < T.length → p (U.getD i []) = p (T.getD i [])) :
    (U.filter p).length = (T.filter p).length := by
  rw [count_eq_index_count, count_eq_index_count, hlen]
  congr 1
  apply List.filter_congr
  intro i hi
  exact h i (List.mem_range.mp hi)

/-- Scene-level count bookkeeping: if `p` holds on `U` and fails on `T` exactly on the duplicate-free index set `S` and the scenes agree elsewhere, `U`'s count exceeds `T`'s by `|S|`. -/
theorem count_scene_split (p : Obj → Bool) (T U : Scene) (S : List Nat)
    (hlen : U.length = T.length) (hnd : S.Nodup)
    (hS : ∀ i ∈ S, i < T.length ∧ p (U.getD i []) = true ∧ p (T.getD i []) = false)
    (hout : ∀ i, i < T.length → i ∉ S → p (U.getD i []) = p (T.getD i [])) :
    (U.filter p).length = (T.filter p).length + S.length := by
  rw [count_eq_index_count p T, count_eq_index_count p U, hlen]
  have h := count_range_split T.length S (fun i => p (U.getD i []))
    (fun i => p (T.getD i [])) hnd hS (fun i hi hni => (hout i hi hni).symm)
  omega

/-- A scalar write outside the first-category slice does not change first-category membership. -/
theorem isFirst_set_outside (rel : ObjectCountRelation) (o : Obj) (k : Nat) (v : Int)
    (hk : k < rel.firstSlice.start ∨ rel.firstSlice.stop ≤ k)
    (hss1 : rel.firstSlice.start ≤ rel.firstSlice.stop) :
    rel.isFirst (o.set k v) = rel.isFirst o := by
  rw [ObjectCountRelation.isFirst, ObjectCountRelation.isFirst,
    sliceOf_set_outside o k v rel.firstSlice hk hss1]

/-- An object whose distinguished second-type entry is zeroed and whose freshly drawn (different) type entry is set to 1 is no longer of the second category. -/
theorem isSecond_reassigned_false (rel : ObjectCountRelation) (o : Obj) (a : Nat)
    (hss2 : rel.secondSlice.start ≤ rel.secondSlice.stop)
    (hw2 : rel.secondSlice.stop - rel.secondSlice.start = rel.secondNTypes)
    (hsi : rel.secondIndex < rel.secondNTypes)
    (ha : a ≠ rel.secondIndex)
    (hlen : rel.secondSlice.stop ≤ o.length) :
    rel.isSecond ((o.set (rel.secondSlice.start + rel.secondIndex) 0).set
      (rel.secondSlice.start + a) 1) = false := by
  rw [ObjectCountRelation.isSecond]
  apply beq_eq_false_iff_ne.mpr
  intro heq
  have hL : ((o.set (rel.secondSlice.start + rel.secondIndex) 0).set
      (rel.secondSlice.start + a) 1).length = o.length := by
    simp
  have hval : ((o.set (rel.secondSlice.start + rel.secondIndex) 0).set
      (rel.secondSlice.start + a) 1).getD (rel.secondSlice.start + rel.secondIndex) 0
      = 0 := by
    rw [List.getD_eq_getElem?_getD,
      List.getElem?_set_ne (by omega : rel.secondSlice.start + a ≠
        rel.secondSlice.start + rel.secondIndex),
      List.getElem?_set_self (by omega : rel.secondSlice.start + rel.secondIndex < o.length)]
    rfl
  have hslice := getD_sliceOf ((o.set (rel.secondSlice.start + rel.secondIndex) 0).set
      (rel.secondSlice.start + a) 1) rel.secondSlice rel.secondIndex
      (by omega) (by rw [hL]; exact hlen)
  rw [heq] at hslice
  rw [ObjectCountRelation.secondTensor, oneHot_getD _ _ _ hsi, if_pos rfl] at hslice
  rw [hval] at hslice
  cases hslice

/-- Characterisation of the second-category reassignment (lines 243-253): the scene size is kept, unchosen objects are untouched, and each chosen object has its distinguished entry zeroed and its drawn entry set. -/
theorem applySecondReassignment_facts (rel : ObjectCountRelation) (T : Scene)
    (sChosen nAssigns : List Nat) (hnd : sChosen.Nodup)
    (hlen : sChosen.length = nAssigns.length) :
    ((rel.applySecondReassignment T sChosen nAssigns).length = T.length) ∧
    (∀ i, i ∉ sChosen →
      (rel.applySecondReassignment T sChosen nAssigns).getD i [] = T.getD i []) ∧
    (∀ p ∈ sChosen.zip nAssigns, p.1 < T.length →
      (rel.applySecondReassignment T sChosen nAssigns).getD p.1 []
        = ((T.getD p.1 []).set (rel.secondSlice.start + rel.secondIndex) 0).set
            (rel.secondSlice.start + p.2) 1) := by
  rw [ObjectCountRelation.applySecondReassignment]
  obtain ⟨h1len, h1out, h1in⟩ := foldl_update_facts2 (fun i => i)
    (fun _ o => o.set (rel.secondSlice.start + rel.secondIndex) 0)
    (fun acc i => setCoord acc i (rel.secondSlice.start + rel.secondIndex) 0)
    (fun acc b => rfl) sChosen T (by simpa using hnd)
  obtain ⟨h2len, h2out, h2in⟩ := foldl_update_facts2 (fun p : Nat × Nat => p.1)
    (fun p o => o.set (rel.secondSlice.start + p.2) 1)
    (fun acc p => setCoord acc p.1 (rel.secondSlice.start + p.2) 1)
    (fun acc b => rfl) (sChosen.zip nAssigns)
    (sChosen.foldl (fun acc i => setCoord acc i
      (rel.secondSlice.start + rel.secondIndex) 0) T)
    (by rw [List.map_fst_zip sChosen nAssigns (le_of_eq hlen)]; exact hnd)
  refine ⟨by rw [h2len, h1len], ?_, ?_⟩
  · intro i hi
    rw [h2out i (by rw [List.map_fst_zip sChosen nAssigns (le_of_eq hlen)]; exact hi)]
    exact h1out i (by simpa using hi)
  · intro p hp hplt
    have hp1 : p.1 ∈ sChosen := (List.of_mem_zip hp).1
    rw [h2in p hp (by rw [h1len]; exact hplt)]
    rw [h1in p.1 hp1 hplt]

/-- `valid_indices_to_modify` and the first-category objects partition the scene. -/
theorem validIndices_length (rel : ObjectCountRelation) (T : Scene) :
    (rel.validIndicesToModify T).length + (T.filter rel.isFirst).length = T.length := by
  rw [ObjectCountRelation.validIndicesToModify, count_eq_index_count]
  exact count_range_not T.length (fun i => rel.isFirst (T.getD i []))

/-- Membership in `valid_indices_to_modify`: in-range indices of non-first objects. -/
theorem mem_validIndices (rel : ObjectCountRelation) (T : Scene) (i : Nat) :
    i ∈ rel.validIndicesToModify T ↔
      i < T.length ∧ rel.isFirst (T.getD i []) = false := by
  rw [ObjectCountRelation.validIndicesToModify, List.mem_filter, List.mem_range]
  simp

/-- `valid_indices_to_modify` lists each index at most once. -/
theorem validIndices_nodup (rel : ObjectCountRelation) (T : Scene) :
    (rel.validIndicesToModify T).Nodup := by
  rw [ObjectCountRelation.validIndicesToModify]
  exact (List.nodup_range T.length).filter _

/-- Characterisation of step 1 of `ObjectCountRelation.balance`: recoloring keeps the scene size, every object's length and first-category status, keeps the first-category count, lowers the second-category count by exactly `num_second_to_modify` when every object was second-category, and otherwise does nothing. -/
theorem recoloredScene_facts (rel : ObjectCountRelation) (objects : Scene)
    (numSecondToModify : Nat) (secondChosen newAssigns : List Nat)
    (hss1 : rel.firstSlice.start ≤ rel.firstSlice.stop)
    (hss2 : rel.secondSlice.start ≤ rel.secondSlice.stop)
    (hw2 : rel.secondSlice.stop - rel.secondSlice.start = rel.secondNTypes)
    (hsi : rel.secondIndex < rel.secondNTypes)
    (hdisj : rel.firstSlice.stop ≤ rel.secondSlice.start ∨
      rel.secondSlice.stop ≤ rel.firstSlice.start)
    (hobj : ∀ o ∈ objects, rel.secondSlice.stop ≤ o.length)
    (hk : (objects.filter rel.isSecond).length = objects.length →
      secondChosen.length = numSecondToModify ∧ secondChosen.Nodup ∧
      newAssigns.length = numSecondToModify ∧
      (∀ i ∈ secondChosen, i < objects.length ∧
        rel.isSecond (objects.getD i []) = true) ∧
      (∀ a ∈ newAssigns, a < rel.secondNTypes ∧ a ≠ rel.secondIndex)) :
    ((rel.recoloredScene objects secondChosen newAssigns).length = objects.length) ∧
    (∀ i, i < objects.length →
      ((rel.recoloredScene objects secondChosen newAssigns).getD i []).length
        = (objects.getD i []).length ∧
      rel.isFirst ((rel.recoloredScene objects secondChosen newAssigns).getD i [])
        = rel.isFirst (objects.getD i [])) ∧
    (((rel.recoloredScene objects secondChosen newAssigns).filter rel.isFirst).length
      = (objects.filter rel.isFirst).length) ∧
    ((objects.filter rel.isSecond).length = objects.length →
      ((rel.recoloredScene objects secondChosen newAssigns).filter rel.isSecond).length
        + numSecondToModify = objects.length) ∧
    ((objects.filter rel.isSecond).length ≠ objects.length →
      rel.recoloredScene objects secondChosen newAssigns = objects) := by
  by_cases hscn : (objects.filter rel.isSecond).length = objects.length
  case neg =>
    have hO : rel.recoloredScene objects secondChosen newAssigns = objects := by
      rw [ObjectCountRelation.recoloredScene, if_neg hscn]
    rw [hO]
    exact ⟨rfl, fun i _ => ⟨rfl, rfl⟩, rfl, fun h => absurd h hscn, fun _ => rfl⟩
  case pos =>
    obtain ⟨hkl, hknd, hkna, hkmem, hkass⟩ := hk hscn
    have hO : rel.recoloredScene objects secondChosen newAssigns
        = rel.applySecondReassignment objects secondChosen newAssigns := by
      rw [ObjectCountRelation.recoloredScene, if_pos hscn]
    rw [hO]
    obtain ⟨hA1, hA2, hA3⟩ := applySecondReassignment_facts rel objects secondChosen
      newAssigns hknd (by omega)
    have hchar : ∀ i ∈ secondChosen, ∃ a, a < rel.secondNTypes ∧ a ≠ rel.secondIndex ∧
        (rel.applySecondReassignment objects secondChosen newAssigns).getD i []
          = ((objects.getD i []).set (rel.secondSlice.start + rel.secondIndex) 0).set
              (rel.secondSlice.start + a) 1 := by
      intro i hi
      obtain ⟨a, hpa⟩ := exists_zip_pair secondChosen newAssigns (by omega) i hi
      have hana := (List.of_mem_zip hpa).2
      exact ⟨a, (hkass a hana).1, (hkass a hana).2, hA3 (i, a) hpa (hkmem i hi).1⟩
    have hprops : ∀ i, i < objects.length →
        ((rel.applySecondReassignment objects secondChosen newAssigns).getD i []).length
          = (objects.getD i []).length ∧
        rel.isFirst ((rel.applySecondReassignment objects secondChosen
          newAssigns).getD i []) = rel.isFirst (objects.getD i []) := by
      intro i hilt
      by_cases hiS : i ∈ secondChosen
      · obtain ⟨a, haT, haI, he⟩ := hchar i hiS
        rw [he]
        refine ⟨by simp, ?_⟩
        rw [isFirst_set_outside _ _ _ _ (by omega) hss1,
          isFirst_set_outside _ _ _ _ (by omega) hss1]
      · rw [hA2 i hiS]
        exact ⟨rfl, rfl⟩
    refine ⟨hA1, hprops, ?_, ?_, fun h => absurd hscn h⟩
    · exact count_scene_congr rel.isFirst objects
        (rel.applySecondReassignment objects secondChosen newAssigns) hA1
        (fun i hi => (hprops i hi).2)
    · intro _
      have hsplit := count_scene_split rel.isSecond
        (rel.applySecondReassignment objects secondChosen newAssigns) objects
        secondChosen hA1.symm hknd
        (by
          intro i hi
          refine ⟨by rw [hA1]; exact (hkmem i hi).1, (hkmem i hi).2, ?_⟩
          obtain ⟨a, haT, haI, he⟩ := hchar i hi
          rw [he]
          exact isSecond_reassigned_false rel _ a hss2 hw2 hsi haI
            (hobj _ (getD_mem_of_lt _ _ (hkmem i hi).1)))
        (by
          intro i hilt hni
          rw [hA2 i hni])
      omega

/-- Writing the first-category one-hot tensor into an object's first slice makes it first-category. -/
theorem isFirst_writeFirst (rel : ObjectCountRelation) (o : Obj)
    (hss1 : rel.firstSlice.start ≤ rel.firstSlice.stop)
    (hw1 : rel.firstSlice.stop - rel.firstSlice.start = rel.firstNTypes)
    (hstop : rel.firstSlice.stop ≤ o.length) :
    rel.isFirst (writeSlice o rel.firstSlice rel.firstTensor) = true := by
  rw [ObjectCountRelation.isFirst, sliceOf_writeSlice _ _ _ hss1 hstop
    (by rw [ObjectCountRelation.firstTensor, oneHot_length]; omega)]
  exact beq_self_eq_true _

/-- Writing the first-category tensor does not change second-category membership (the slices are disjoint). -/
theorem isSecond_writeFirst (rel : ObjectCountRelation) (o : Obj)
    (hss1 : rel.firstSlice.start ≤ rel.firstSlice.stop)
    (hw1 : rel.firstSlice.stop - rel.firstSlice.start = rel.firstNTypes)
    (hstop : rel.firstSlice.stop ≤ o.length)
    (hdisj : rel.firstSlice.stop ≤ rel.secondSlice.start ∨
      rel.secondSlice.stop ≤ rel.firstSlice.start) :
    rel.isSecond (writeSlice o rel.firstSlice rel.firstTensor) = rel.isSecond o := by
  rw [ObjectCountRelation.isSecond, ObjectCountRelation.isSecond,
    sliceOf_writeSlice_outside o rel.firstSlice rel.secondSlice _ hss1 hstop
      (by rw [ObjectCountRelation.firstTensor, oneHot_length]; omega) hdisj.symm]

/-- Effect of assigning the first-category tensor at a duplicate-free list of non-first indices: the first-category count grows by the number of indices and the second-category count is unchanged. -/
theorem writeFirst_fold_facts (rel : ObjectCountRelation) (O1 : Scene) (S : List Nat)
    (hss1 : rel.firstSlice.start ≤ rel.firstSlice.stop)
    (hw1 : rel.firstSlice.stop - rel.firstSlice.start = rel.firstNTypes)
    (hdisj : rel.firstSlice.stop ≤ rel.secondSlice.start ∨
      rel.secondSlice.stop ≤ rel.firstSlice.start)
    (hnd : S.Nodup)
    (hmem : ∀ i ∈ S, i < O1.length ∧ rel.isFirst (O1.getD i []) = false ∧
      rel.firstSlice.stop ≤ (O1.getD i []).length) :
    ((List.filter rel.isFirst
        (S.foldl (fun acc i => writeSliceAt acc i rel.firstSlice rel.firstTensor) O1)).length
      = (O1.filter rel.isFirst).length + S.length) ∧
    ((List.filter rel.isSecond
        (S.foldl (fun acc i => writeSliceAt acc i rel.firstSlice rel.firstTensor) O1)).length
      = (O1.filter rel.isSecond).length) := by
  obtain ⟨hF1, hF2, hF3⟩ := foldl_update_facts2 (fun i => i)
    (fun _ o => writeSlice o rel.firstSlice rel.firstTensor)
    (fun acc i => writeSliceAt acc i rel.firstSlice rel.firstTensor)
    (fun acc b => rfl) S O1 (by simpa using hnd)
  constructor
  · apply count_scene_split rel.isFirst O1 _ S hF1 hnd
    · intro i hi
      refine ⟨(hmem i hi).1, ?_, (hmem i hi).2.1⟩
      rw [hF3 i hi (hmem i hi).1]
      exact isFirst_writeFirst rel _ hss1 hw1 (hmem i hi).2.2
    · intro i hilt hni
      rw [hF2 i (by simpa using hni)]
  · apply count_scene_congr rel.isSecond O1 _ hF1
    intro i hilt
    by_cases hiS : i ∈ S
    · rw [hF3 i hiS (hmem i hiS).1]
      exact isSecond_writeFirst rel _ hss1 hw1 (hmem i hiS).2.2 hdisj
    · rw [hF2 i (by simpa using hiS)]

/-- `ObjectCountRelation.balance` is label-exact: under the standard configuration (disjoint one-hot `color`/`shape` slices of the declared widths) and the code's randomness contract (the step-1 draws when every object is second-category, `num_to_modify` at least `min_objects_to_modify`, and a permutation of the non-first indices), every scene the balancer returns for label 0 evaluates positive: strictly more first-category than second-category objects. -/
theorem objectCount_balance_label_exact (rel : ObjectCountRelation) (objects : Scene)
    (numSecondToModify : Nat) (secondChosen newAssigns : List Nat)
    (numToModify : Nat) (firstChosen : List Nat) (T : Scene)
    (hss1 : rel.firstSlice.start ≤ rel.firstSlice.stop)
    (hw1 : rel.firstSlice.stop - rel.firstSlice.start = rel.firstNTypes)
    (hss2 : rel.secondSlice.start ≤ rel.secondSlice.stop)
    (hw2 : rel.secondSlice.stop - rel.secondSlice.start = rel.secondNTypes)
    (hsi : rel.secondIndex < rel.secondNTypes)
    (hdisj : rel.firstSlice.stop ≤ rel.secondSlice.start ∨
      rel.secondSlice.stop ≤ rel.firstSlice.start)
    (hobj : ∀ o ∈ objects, rel.firstSlice.stop ≤ o.length ∧
      rel.secondSlice.stop ≤ o.length)
    (hk : (objects.filter rel.isSecond).length = objects.length →
      1 ≤ numSecondToModify ∧
      secondChosen.length = numSecondToModify ∧ secondChosen.Nodup ∧
      newAssigns.length = numSecondToModify ∧
      (∀ i ∈ secondChosen, i < objects.length ∧
        rel.isSecond (objects.getD i []) = true) ∧
      (∀ a ∈ newAssigns, a < rel.secondNTypes ∧ a ≠ rel.secondIndex))
    (hperm : firstChosen.Perm (rel.validIndicesToModify
      (rel.recoloredScene objects secondChosen newAssigns)))
    (hm : ((objects.filter rel.isSecond).length : Int)
        - (objects.filter rel.isFirst).length + 1
        - (if (objects.filter rel.isSecond).length = objects.length
            then (numSecondToModify : Int) else 0) ≤ (numToModify : Int))
    (hres : rel.balance objects 0 numSecondToModify secondChosen newAssigns
      numToModify firstChosen = .ok T) :
    rel.evaluate T = true := by
  obtain ⟨hR1, hR2, hR3, hR4, hR5⟩ := recoloredScene_facts rel objects numSecondToModify
    secondChosen newAssigns hss1 hss2 hw2 hsi hdisj (fun o ho => (hobj o ho).2)
    (fun h => (hk h).2)
  have hV := validIndices_length rel (rel.recoloredScene objects secondChosen newAssigns)
  have hsc_le : (objects.filter rel.isSecond).length ≤ objects.length :=
    List.length_filter_le _ _
  rw [ObjectCountRelation.balance, if_neg (by simp)] at hres
  dsimp only at hres
  set kIte : Int := (if (objects.filter rel.isSecond).length = objects.length
      then (numSecondToModify : Int) else 0) with hkIte
  split at hres
  · rename_i hmin
    cases hres
    rw [ObjectCountRelation.evaluate]
    simp only [gt_iff_lt, decide_eq_true_eq]
    by_cases hscn : (objects.filter rel.isSecond).length = objects.length
    · rw [if_pos hscn] at hkIte
      have h4 := hR4 hscn
      have h1k := (hk hscn).1
      omega
    · rw [if_neg hscn] at hkIte
      have h5 := hR5 hscn
      rw [h5]
      omega
  · rename_i hmin
    split at hres
    · rename_i hone
      cases hres
      have hpos : 0 < (rel.validIndicesToModify
          (rel.recoloredScene objects secondChosen newAssigns)).length := by omega
      have hidx_mem := getD_mem_nat _ 0 hpos
      obtain ⟨hidxlt, hidxF⟩ := (mem_validIndices rel _ _).mp hidx_mem
      have hidxlt2 : (rel.validIndicesToModify
          (rel.recoloredScene objects secondChosen newAssigns)).getD 0 0
          < objects.length := by rw [← hR1]; exact hidxlt
      obtain ⟨hW1, hW2⟩ := writeFirst_fold_facts rel
        (rel.recoloredScene objects secondChosen newAssigns)
        [(rel.validIndicesToModify
          (rel.recoloredScene objects secondChosen newAssigns)).getD 0 0]
        hss1 hw1 hdisj (List.nodup_singleton _)
        (by
          intro i hi
          rw [List.mem_singleton] at hi
          subst hi
          refine ⟨hidxlt, hidxF, ?_⟩
          rw [(hR2 _ hidxlt2).1]
          exact (hobj _ (getD_mem_of_lt _ _ hidxlt2)).1)
      have he : [(rel.validIndicesToModify
            (rel.recoloredScene objects secondChosen newAssigns)).getD 0 0].foldl
          (fun acc i => writeSliceAt acc i rel.firstSlice rel.firstTensor)
          (rel.recoloredScene objects secondChosen newAssigns)
          = writeSliceAt (rel.recoloredScene objects secondChosen newAssigns)
            ((rel.validIndicesToModify
              (rel.recoloredScene objects secondChosen newAssigns)).getD 0 0)
            rel.firstSlice rel.firstTensor := rfl
      rw [he] at hW1 hW2
      rw [ObjectCountRelation.evaluate]
      simp only [gt_iff_lt, decide_eq_true_eq]
      rw [hW1, hW2]
      simp only [List.length_singleton]
      by_cases hscn : (objects.filter rel.isSecond).length = objects.length
      · have h4 := hR4 hscn
        have h1k := (hk hscn).1
        omega
      · have h5 := hR5 hscn
        have hs1 : ((rel.recoloredScene objects secondChosen
            newAssigns).filter rel.isSecond).length
            = (objects.filter rel.isSecond).length := by rw [h5]
        omega
    · rename_i hone
      cases hres
      have hFCnd : firstChosen.Nodup :=
        hperm.nodup_iff.mpr (validIndices_nodup rel _)
      obtain ⟨hW1, hW2⟩ := writeFirst_fold_facts rel
        (rel.recoloredScene objects secondChosen newAssigns)
        (firstChosen.take numToModify) hss1 hw1 hdisj
        (hFCnd.sublist (List.take_sublist _ _))
        (by
          intro i hi
          have hiV := hperm.mem_iff.mp (List.mem_of_mem_take hi)
          obtain ⟨hvlt, hvF⟩ := (mem_validIndices rel _ _).mp hiV
          have hvlt2 : i < objects.length := by rw [← hR1]; exact hvlt
          refine ⟨hvlt, hvF, ?_⟩
          rw [(hR2 _ hvlt2).1]
          exact (hobj _ (getD_mem_of_lt _ _ hvlt2)).1)
      rw [ObjectCountRelation.evaluate]
      simp only [gt_iff_lt, decide_eq_true_eq]
      rw [hW1, hW2]
      have hSlen : (firstChosen.take numToModify).length
          = min numToModify firstChosen.length := List.length_take _ _
      have hFClen : firstChosen.length = (rel.validIndicesToModify
          (rel.recoloredScene objects secondChosen newAssigns)).length :=
        hperm.length_eq
      by_cases hscn : (objects.filter rel.isSecond).length = objects.length
      · rw [if_pos hscn] at hkIte
        have h4 := hR4 hscn
        have h1k := (hk hscn).1
        omega
      · rw [if_neg hscn] at hkIte
        have h5 := hR5 hscn
        have hs1 : ((rel.recoloredScene objects secondChosen
            newAssigns).filter rel.isSecond).length
            = (objects.filter rel.isSecond).length := by rw [h5]
        omega
